import Mathlib

/-!
# Verification of `pkg/gopro/producer.go`

A shallow embedding of the GoPro webcam producer: the HTTP command protocol
(`listener.command`), the negotiation sequence (`Dial`), the UDP receive loop
(`listener.worker`) and the sequential reader (`listener.Read`).

Conventions of the embedding

* A Go `[]byte` value is a `List Byte`; where the source distinguishes the nil
  slice (`r.packet == nil`) the value is an `Option (List Byte)` and `none` is nil.
* A Go `(value, error)` result in which the value is the zero value whenever the
  error is non-nil is an `Except GoError value`.
* Calls that leave the program (HTTP, UDP socket, URL parsing, JSON decoding, the
  MPEG-TS demultiplexer) take their outcome from an environment `Env`; every such
  call is appended to a trace of `Action`s, and the environment answers as a
  function of the trace so far.
* A blocking operation that cannot complete in the current state returns `none`.
-/

namespace gopro

/-! ## Data model -/

/-- One octet of a datagram. -/
abbrev Byte := Fin 256

/-- The Go `error` values that flow through the file: `io.EOF`, the errors built
with `errors.New` or `fmt.Errorf`, and errors handed back by library calls. -/
inductive GoError where
  | EOF
  | text (s : String)
  | lib (id : Nat)
  deriving DecidableEq, Repr

deriving instance DecidableEq for Except

/-- Go `type Status int`. -/
abbrev Status := Int

/-- Go `type Error int`. -/
abbrev Error := Int

def StatusOff : Status := 0
def StatusIdle : Status := 1
def StatusHigh_Power_Preview : Status := 2
def StatusLow_Power_Preview : Status := 3
def StatusUnavailable : Status := 4

def ErrorNone : Error := 0
def ErrorSet_Preset : Error := 1
def ErrorSet_Window_Size : Error := 2
def ErrorExec_Stream : Error := 3
def ErrorShutter : Error := 4
def ErrorCom_Timeout : Error := 5
def ErrorInvalid_Param : Error := 6
def ErrorUnavailable : Error := 7
def ErrorExit : Error := 8

/-- Go `type StatusResponse struct`. -/
structure StatusResponse where
  Status : Status
  Error : Error
  deriving DecidableEq, Repr

/-- The fields of `http.Response` that `command` looks at. -/
structure Response where
  StatusCode : Int
  Status : String
  Body : String
  deriving DecidableEq, Repr

/-- The fields of `mpegts.Producer` that `Dial` sets. -/
structure Producer where
  FormatName : String
  RemoteAddr : String
  deriving DecidableEq, Repr

/-- Go builtin `copy(dst, src)`: the number of elements copied, which is the
smaller of the two lengths, and the contents of `dst` afterwards. -/
def copy (dst src : List Byte) : Nat × List Byte :=
  let n := min dst.length src.length
  (n, src.take n ++ dst.drop n)

/-- Go builtin `make([]byte, n)`. -/
def make (n : Nat) : List Byte := List.replicate n 0

/-! ## The datagram queue: `chan []byte` -/

/-- A buffered channel of datagrams: the elements sent and not yet received, oldest
first, and whether `close` has been called. -/
structure Chan where
  buf : List (List Byte)
  closed : Bool
  deriving DecidableEq, Repr

/-- Capacity given in `make(chan []byte, 1024)`. -/
def Chan.cap : Nat := 1024

/-- The receive `v, ok = <-c`. `none`: the receive blocks (open channel, nothing
buffered). `some (none, c)`: the channel is closed and drained, `ok` is false and
`v` is the nil slice. `some (some d, c)`: `d` was dequeued. -/
def Chan.recv (c : Chan) : Option (Option (List Byte) × Chan) :=
  match c.buf with
  | d :: rest => some (some d, { c with buf := rest })
  | [] => if c.closed then some (none, c) else none

/-- The send `c <- d`. `none`: the send does not complete in this state (the buffer
holds `cap` elements, so the sender blocks; a send on a closed channel never
completes either). -/
def Chan.send (c : Chan) (d : List Byte) : Option Chan :=
  if c.closed then none
  else if c.buf.length < Chan.cap then some { c with buf := c.buf ++ [d] }
  else none

/-- Go builtin `close(c)`. -/
def Chan.close (c : Chan) : Chan := { c with closed := true }

/-! ## The listener and its reader -/

/-- Go `type listener struct`, without the socket handle `conn`, whose effects are
recorded in the trace. `packet = none` is the nil slice; `packets = none` is the nil
channel the struct holds until `listen` allocates the queue. -/
structure listener where
  host : String
  packet : Option (List Byte)
  packets : Option Chan
  deriving DecidableEq, Repr

/-- What one call `n, err := r.Read(p)` hands back: the buffer contents after the
call, the count and the error. -/
structure ReadRet where
  p : List Byte
  n : Nat
  err : Option GoError
  deriving DecidableEq, Repr

/-- Lines 110 to 118 of `Read`, entered with `r.packet` equal to the non-nil slice
`pk`: copy into `p`, then keep the unread tail or reset `r.packet` to nil. -/
def listener.readPacket (r : listener) (pk p : List Byte) : ReadRet × listener :=
  let c := copy p pk
  if c.1 < pk.length then
    ({ p := c.2, n := c.1, err := none }, { r with packet := some (pk.drop c.1) })
  else
    ({ p := c.2, n := c.1, err := none }, { r with packet := none })

/-- Go `func (r *listener) Read(p []byte) (n int, err error)`. `none`: the call is
blocked in the channel receive. -/
def listener.Read (r : listener) (p : List Byte) : Option (ReadRet × listener) :=
  match r.packet with
  | none =>
    match r.packets with
    | none => none
    | some ch =>
      match ch.recv with
      | none => none
      | some (none, c) =>
        some ({ p := p, n := 0, err := some GoError.EOF },
              { r with packet := none, packets := some c })
      | some (some d, c) => some (listener.readPacket { r with packets := some c } d p)
  | some pk => some (listener.readPacket r pk p)

/-- The datagram that a `Read` on `r` takes out of the queue: none when a pending
remainder is served instead, or when nothing is queued. -/
def listener.dequeued (r : listener) : Option (List Byte) :=
  match r.packet, r.packets with
  | none, some ch => ch.buf.head?
  | _, _ => none

/-- The bytes of the pending remainder, empty for the nil slice. -/
def listener.pending (r : listener) : List Byte := r.packet.getD []

/-- The datagrams waiting in the queue, none for the nil channel. -/
def listener.queued (r : listener) : List (List Byte) :=
  match r.packets with
  | none => []
  | some ch => ch.buf

/-! ## Runs of the reader against the queue -/

/-- The events of a run of one listener: the consumer calls `Read` with a buffer,
the receive loop sends a datagram, the receive loop closes the queue. -/
inductive Ev where
  | read (p : List Byte)
  | send (d : List Byte)
  | close
  deriving DecidableEq, Repr

/-- State of a run: the listener, the results of the `Read` calls that have returned
(oldest first) and, as bookkeeping, the datagram most recently dequeued by `Read`. -/
structure Sys where
  r : listener
  rets : List ReadRet
  last : Option (List Byte)
  deriving DecidableEq, Repr

/-- One event. An operation that cannot complete in the current state leaves the
state as it is. -/
def Sys.step (s : Sys) : Ev → Sys
  | Ev.read p =>
    match s.r.Read p with
    | none => s
    | some (ret, r') =>
      { r := r', rets := s.rets ++ [ret],
        last := match s.r.dequeued with
          | some d => some d
          | none => s.last }
  | Ev.send d =>
    match s.r.packets with
    | none => s
    | some ch =>
      match ch.send d with
      | none => s
      | some c => { s with r := { s.r with packets := some c } }
  | Ev.close =>
    match s.r.packets with
    | none => s
    | some ch => { s with r := { s.r with packets := some ch.close } }

/-- A sequence of events from a state. -/
def Sys.run (s : Sys) (evs : List Ev) : Sys := evs.foldl Sys.step s

/-- A listener whose queue holds the datagrams `ds`, with nothing pending. -/
def listener.withQueue (host : String) (ds : List (List Byte)) (closed : Bool) : listener :=
  { host := host, packet := none, packets := some { buf := ds, closed := closed } }

/-- Successive `Read` calls with the buffers `bufs` on the listener `r`. -/
def reads (r : listener) (bufs : List (List Byte)) : Sys :=
  Sys.run { r := r, rets := [], last := none } (bufs.map Ev.read)

/-- The bytes handed to the caller by a list of returned `Read` calls: for each call
the first `n` bytes of its buffer, concatenated in call order. -/
def returned (rets : List ReadRet) : List Byte :=
  (rets.map fun x => x.p.take x.n).flatten

/-! ## Calls that leave the program -/

/-- The calls whose order the specification talks about, as they appear in a trace. -/
inductive Action where
  /-- The request `client.Get(url)` made by `command`. -/
  | get (url : String)
  /-- The call `net.ListenPacket("udp4", ":8554")` made by `listen`. -/
  | listenPacket
  /-- The statement `go r.worker()`. -/
  | goWorker
  /-- The call `mpegts.Open(r)`. -/
  | mpegtsOpen
  /-- The send `r.packets <- packet`. -/
  | send (packet : List Byte)
  /-- The statement `close(r.packets)`. -/
  | closeChan
  /-- The call `r.conn.Close()`. -/
  | connClose
  deriving DecidableEq, Repr

/-- The outcomes of the calls that leave the program. Each answer may depend on
everything done so far: the argument of `get`, `listenPacket`, `mpegtsOpen` and
`connClose` is the trace up to and including the call being answered. -/
structure Env where
  /-- The pair `url.Parse(rawURL)` and `u.Host`. -/
  parseHost : String → Except GoError String
  /-- The result of `client.Get`, timeout of 5 seconds included. -/
  get : List Action → Except GoError Response
  /-- The result of `json.NewDecoder(res.Body).Decode(&statusResponse)`. -/
  decode : String → Except GoError StatusResponse
  /-- The error of `net.ListenPacket`, if any. -/
  listenPacket : List Action → Option GoError
  /-- The error of `mpegts.Open`, if any. -/
  mpegtsOpen : List Action → Option GoError
  /-- The error of `conn.Close`, if any. -/
  connClose : List Action → Option GoError

/-- The address requested by `command`: `"http://" + r.host + ":8080" + api`. -/
def listener.url (r : listener) (api : String) : String :=
  "http://" ++ r.host ++ ":8080" ++ api

/-- Go `func (r *listener) command(api string) (Status, error)`, started with the
trace `tr`; the second component is the trace afterwards. -/
def listener.command (r : listener) (env : Env) (api : String) (tr : List Action) :
    Except GoError Status × List Action :=
  let tr1 := tr ++ [Action.get (r.url api)]
  match env.get tr1 with
  | Except.error err => (Except.error err, tr1)
  | Except.ok res =>
    if res.StatusCode ≠ 200 then
      (Except.error (GoError.text ("gopro: wrong response: " ++ res.Status)), tr1)
    else
      match env.decode res.Body with
      | Except.error err => (Except.error err, tr1)
      | Except.ok statusResponse =>
        if statusResponse.Error > 0 then
          (Except.error (GoError.text
            ("gopro: error in status response: " ++ toString statusResponse.Error)), tr1)
        else
          (Except.ok statusResponse.Status, tr1)

/-- Go `func (r *listener) listen() (err error)`: the error, the listener and the
trace afterwards. -/
def listener.listen (r : listener) (env : Env) (tr : List Action) :
    Option GoError × listener × List Action :=
  let tr1 := tr ++ [Action.listenPacket]
  match env.listenPacket tr1 with
  | some err => (some err, r, tr1)
  | none =>
    (none, { r with packets := some { buf := [], closed := false } }, tr1 ++ [Action.goWorker])

/-- Go `func (r *listener) Close() error`: the error of `r.conn.Close()` and the
trace afterwards. -/
def listener.Close (_r : listener) (env : Env) (tr : List Action) :
    Option GoError × List Action :=
  (env.connClose (tr ++ [Action.connClose]), tr ++ [Action.connClose])

/-! ## `Dial` -/

/-- The value `&listener{host: u.Host}` built by `Dial`: no pending remainder, nil
channel. -/
def listenerFor (host : String) : listener := { host := host, packet := none, packets := none }

/-- Lines 84 to 92 of `Dial`: open the demultiplexer on the listener and label the
producer. -/
def dialProducer (env : Env) (r : listener) (tr : List Action) :
    Except GoError Producer × List Action :=
  let tr1 := tr ++ [Action.mpegtsOpen]
  match env.mpegtsOpen tr1 with
  | some err => (Except.error err, tr1)
  | none => (Except.ok { FormatName := "gopro", RemoteAddr := r.host }, tr1)

/-- Lines 70 to 92 of `Dial`: the second status query and the conditional start. -/
def dialStart (env : Env) (r : listener) (tr : List Action) :
    Except GoError Producer × List Action :=
  match r.command env "/gopro/webcam/status" tr with
  | (Except.error err, tr1) => (Except.error err, tr1)
  | (Except.ok status, tr1) =>
    if status = StatusOff ∨ status = StatusIdle then
      match r.command env "/gopro/webcam/start" tr1 with
      | (Except.error err, tr2) => (Except.error err, tr2)
      | (Except.ok _, tr2) => dialProducer env r tr2
    else
      dialProducer env r tr1

/-- Lines 66 to 92 of `Dial`: bind the listener, then go on. -/
def dialListen (env : Env) (r : listener) (tr : List Action) :
    Except GoError Producer × List Action :=
  match r.listen env tr with
  | (some err, _, tr1) => (Except.error err, tr1)
  | (none, r1, tr1) => dialStart env r1 tr1

/-- Go `func Dial(rawURL string) (*mpegts.Producer, error)`: the result and the
trace of the calls `Dial` made. -/
def Dial (env : Env) (rawURL : String) : Except GoError Producer × List Action :=
  match env.parseHost rawURL with
  | Except.error err => (Except.error err, [])
  | Except.ok host =>
    let r := listenerFor host
    match r.command env "/gopro/webcam/status" [] with
    | (Except.error err, tr1) => (Except.error err, tr1)
    | (Except.ok status, tr1) =>
      if status = StatusHigh_Power_Preview ∨ status = StatusLow_Power_Preview then
        match r.command env "/gopro/webcam/stop" tr1 with
        | (Except.error err, tr2) => (Except.error err, tr2)
        | (Except.ok _, tr2) => dialListen env r tr2
      else
        dialListen env r tr1

/-! ## The receive loop -/

/-- What one iteration of the loop in `worker` meets: `SetReadDeadline` fails,
`ReadFrom` fails (the 3 second deadline expiring is such a failure), or `ReadFrom`
delivers a datagram with payload `d`. -/
inductive Recv where
  | deadlineErr (err : GoError)
  | readErr (err : GoError)
  | datagram (d : List Byte)
  deriving DecidableEq, Repr

/-- A successful `n, _, err := r.conn.ReadFrom(b)` for a datagram with payload `d`:
the payload is copied into `b` as far as it fits; the count and the buffer after. -/
def readFrom (b d : List Byte) : Nat × List Byte := copy b d

/-- The `for` loop of `worker` (lines 164 to 178) run on the outcomes it meets, with
receive buffer `b`. The flag tells whether the loop was left by `break`; it is false
when the outcomes end with the loop still waiting for the next one. The trace lists
the sends in program order; a send that finds the queue full waits for the consumer
and completes then, which delays the following iterations and changes nothing else. -/
def listener.workerLoop (r : listener) (b : List Byte) (tr : List Action) :
    List Recv → Bool × List Byte × List Action
  | [] => (false, b, tr)
  | Recv.deadlineErr _ :: _ => (true, b, tr)
  | Recv.readErr _ :: _ => (true, b, tr)
  | Recv.datagram d :: rest =>
    let rf := readFrom b d
    let packet := (copy (make rf.1) rf.2).2
    listener.workerLoop r rf.2 (tr ++ [Action.send packet]) rest

/-- Go `func (r *listener) worker()`: whether the function has returned, and the
trace afterwards. -/
def listener.worker (r : listener) (env : Env) (recvs : List Recv) (tr : List Action) :
    Bool × List Action :=
  let b := make 1500
  match r.workerLoop b tr recvs with
  | (false, _, tr1) => (false, tr1)
  | (true, _, tr1) =>
    let tr2 := tr1 ++ [Action.closeChan]
    let c := r.command env "/gopro/webcam/stop" tr2
    (true, c.2)

/-- The payloads of the outcomes met before the first failure. -/
def accepted : List Recv → List (List Byte)
  | Recv.datagram d :: rest => d :: accepted rest
  | _ => []

/-- Whether an outcome is one of the two failures. -/
def Recv.failed : Recv → Bool
  | Recv.datagram _ => false
  | _ => true

/-- The receive buffer after the datagrams `ds` have been received into `b` one
after the other. -/
def bufferAfter (b : List Byte) (ds : List (List Byte)) : List Byte :=
  ds.foldl (fun b d => (readFrom b d).2) b

/-- The elements sent on the queue in a trace, oldest first. -/
def sent : List Action → List (List Byte)
  | [] => []
  | Action.send packet :: tr => packet :: sent tr
  | _ :: tr => sent tr

/-- The actions of one session in the schedule where the receive loop, if `Dial`
started it, meets its outcomes `recvs` after `Dial` has returned. -/
def session (env : Env) (rawURL : String) (recvs : List Recv) : List Action :=
  match env.parseHost rawURL with
  | Except.error _ => []
  | Except.ok host =>
    let d := Dial env rawURL
    if Action.goWorker ∈ d.2 then ((listenerFor host).worker env recvs d.2).2
    else d.2

/-- The requests the specification lists before the bind: the status query, then
the stop when the status answered is `HighPowerPreview` or `LowPowerPreview`. -/
def preListen (host : String) (s1 : Status) : List Action :=
  Action.get ((listenerFor host).url "/gopro/webcam/status") ::
    (if s1 = StatusHigh_Power_Preview ∨ s1 = StatusLow_Power_Preview then
      [Action.get ((listenerFor host).url "/gopro/webcam/stop")]
    else [])

/-- The trace up to the point where the listener is bound and its loop started. -/
def bound (host : String) (s1 : Status) : List Action :=
  preListen host s1 ++ [Action.listenPacket, Action.goWorker]

/-- The order of actions the specification gives for a `Dial` in which every step
succeeds: status; stop when the first status is `HighPowerPreview` or
`LowPowerPreview`; bind; status; start when the second status is `Off` or `Idle`;
hand-over to the demultiplexer. -/
def negotiation (host : String) (s1 s2 : Status) : List Action :=
  bound host s1 ++ [Action.get ((listenerFor host).url "/gopro/webcam/status")] ++
    (if s2 = StatusOff ∨ s2 = StatusIdle then
      [Action.get ((listenerFor host).url "/gopro/webcam/start")]
    else []) ++
    [Action.mpegtsOpen]

/-- The request `u`, made after the actions `pre`, is answered by a response whose
body decodes to an error code greater than 0. -/
def errorCoded (env : Env) (pre : List Action) (u : String) : Prop :=
  ∃ res sr, env.get (pre ++ [Action.get u]) = Except.ok res ∧
    env.decode res.Body = Except.ok sr ∧ sr.Error > 0

/-- No request of the trace is answered with an error code greater than 0. -/
def noErrorCode (env : Env) (tr : List Action) : Prop :=
  ∀ pre u post, tr = pre ++ Action.get u :: post → ¬ errorCoded env pre u

/-- A run in which a request answered with an error code greater than 0 can only
be the last action, and then the result is an error. -/
def abortsOnErrorCode (env : Env) (run : Except GoError Producer × List Action) : Prop :=
  ∀ pre u post, run.2 = pre ++ Action.get u :: post → errorCoded env pre u →
    post = [] ∧ ∃ err, run.1 = Except.error err

/-- The bytes not yet handed to the caller: the pending remainder, then the queue. -/
def listener.remaining (r : listener) : List Byte := r.pending ++ r.queued.flatten

/-- The pending remainder of a run is absent, or a non-empty suffix of the datagram
most recently dequeued. -/
def Sys.pendingOK (s : Sys) : Prop :=
  s.r.packet = none ∨
    ∃ pk d, s.r.packet = some pk ∧ s.last = some d ∧ pk ≠ [] ∧ pk <:+ d

/-- The pending remainder of a run is absent, or a non-empty proper suffix of the
datagram most recently dequeued. -/
def Sys.pendingProper (s : Sys) : Prop :=
  s.r.packet = none ∨
    ∃ pk d, s.r.packet = some pk ∧ s.last = some d ∧ pk ≠ [] ∧ pk <:+ d ∧ pk ≠ d

/-! ## Concrete environments for worked runs -/

/-- Whether an action is an HTTP request. -/
def Action.isGet : Action → Bool
  | Action.get _ => true
  | _ => false

/-- A decoder for worked runs: it knows five bodies and rejects everything else. -/
def sampleDecode (body : String) : Except GoError StatusResponse :=
  if body = "\x7b\"status\":0,\"error\":0\x7d" then Except.ok { Status := 0, Error := 0 }
  else if body = "\x7b\"status\":1,\"error\":0\x7d" then Except.ok { Status := 1, Error := 0 }
  else if body = "\x7b\"status\":2,\"error\":0\x7d" then Except.ok { Status := 2, Error := 0 }
  else if body = "\x7b\"status\":0,\"error\":5\x7d" then Except.ok { Status := 0, Error := 5 }
  else if body = "\x7b\"status\":2,\"error\":-1\x7d" then Except.ok { Status := 2, Error := -1 }
  else Except.error (GoError.lib 1)

/-- The response `200 OK` with the given body. -/
def ok200 (body : String) : Except GoError Response :=
  Except.ok { StatusCode := 200, Status := "200 OK", Body := body }

/-- An environment for worked runs: the host of a URL is the text itself, the k-th
request of a trace gets the k-th entry of `answers` (a transport error when there is
none), bodies go through `sampleDecode`, and binding the socket and opening the
demultiplexer give the stated errors. -/
def scripted (answers : List (Except GoError Response)) (bind demux : Option GoError) : Env :=
  { parseHost := fun rawURL => Except.ok rawURL
    get := fun tr => answers.getD ((tr.filter Action.isGet).length - 1)
      (Except.error (GoError.lib 0))
    decode := sampleDecode
    listenPacket := fun _ => bind
    mpegtsOpen := fun _ => demux
    connClose := fun _ => none }

/-- The listener `Dial` builds for the host `"10.5.5.9"`. -/
def sampleListener : listener := listenerFor "10.5.5.9"

/-! ## Facts about `copy` and `Read` -/

theorem copy_count (dst src : List Byte) : (copy dst src).1 = min dst.length src.length := rfl

theorem copy_length (dst src : List Byte) : (copy dst src).2.length = dst.length := by
  simp only [copy, List.length_append, List.length_take, List.length_drop]
  omega

theorem copy_take (dst src : List Byte) :
    (copy dst src).2.take (copy dst src).1 = src.take (min dst.length src.length) := by
  simp only [copy]
  rw [List.take_append_of_le_length (by simp)]
  simp

theorem readPacket_ret (r : listener) (pk p : List Byte) :
    (r.readPacket pk p).1 =
      { p := pk.take (min p.length pk.length) ++ p.drop (min p.length pk.length),
        n := min p.length pk.length, err := none } := by
  simp only [listener.readPacket]
  split <;> rfl

theorem readPacket_listener (r : listener) (pk p : List Byte) :
    (r.readPacket pk p).2 =
      { r with packet := if p.length < pk.length then some (pk.drop p.length) else none } := by
  unfold listener.readPacket
  simp only [copy_count]
  by_cases h : p.length < pk.length
  · have hm : min p.length pk.length = p.length := by omega
    simp [hm, h]
  · have hm : min p.length pk.length = pk.length := by omega
    simp [hm, h]

theorem readPacket_bytes (r : listener) (pk p : List Byte) :
    (r.readPacket pk p).1.p.take (r.readPacket pk p).1.n ++ (r.readPacket pk p).2.pending = pk := by
  rw [readPacket_ret, readPacket_listener]
  simp only [listener.pending]
  rw [List.take_append_of_le_length (by simp)]
  by_cases h : p.length < pk.length
  · have hm : min p.length pk.length = p.length := by omega
    simp [hm, h, List.take_take]
  · have hm : min p.length pk.length = pk.length := by omega
    simp [hm, h]

/-- A complete description of `Read`, case by case. -/
theorem Read_cases (r : listener) (p : List Byte) :
    (r.packet = none ∧ r.packets = none ∧ r.Read p = none) ∨
    (∃ ch, r.packet = none ∧ r.packets = some ch ∧ ch.buf = [] ∧ ch.closed = false ∧
      r.Read p = none) ∨
    (∃ ch, r.packet = none ∧ r.packets = some ch ∧ ch.buf = [] ∧ ch.closed = true ∧
      r.Read p = some ({ p := p, n := 0, err := some GoError.EOF }, r)) ∨
    (∃ ch d rest, r.packet = none ∧ r.packets = some ch ∧ ch.buf = d :: rest ∧
      r.Read p = some (listener.readPacket { r with packets := some { ch with buf := rest } } d p)) ∨
    (∃ pk, r.packet = some pk ∧ r.Read p = some (r.readPacket pk p)) := by
  obtain ⟨host, packet, packets⟩ := r
  cases packet with
  | some pk => right; right; right; right; exact ⟨pk, rfl, rfl⟩
  | none =>
    cases packets with
    | none => left; exact ⟨rfl, rfl, rfl⟩
    | some ch =>
      obtain ⟨buf, closed⟩ := ch
      cases buf with
      | cons d rest => right; right; right; left; exact ⟨_, d, rest, rfl, rfl, rfl, rfl⟩
      | nil =>
        cases closed with
        | false => right; left; exact ⟨_, rfl, rfl, rfl, rfl, rfl⟩
        | true => right; right; left; exact ⟨_, rfl, rfl, rfl, rfl, rfl⟩

/-- One returned `Read` hands over a front piece of the bytes not yet delivered and
leaves the rest; it reports end-of-stream only when nothing is left. -/
theorem Read_remaining (r r' : listener) (p : List Byte) (ret : ReadRet)
    (h : r.Read p = some (ret, r')) :
    ret.p.take ret.n ++ r'.remaining = r.remaining ∧
    (ret.err = some GoError.EOF → r.remaining = []) ∧
    (∀ ch, r.packets = some ch → ∃ ch', r'.packets = some ch' ∧ ch'.closed = ch.closed) := by
  rcases Read_cases r p with ⟨_, _, h0⟩ | ⟨ch, _, _, _, _, h0⟩ | ⟨ch, hp, hq, hb, hc, h0⟩ |
    ⟨ch, d, rest, hp, hq, hb, h0⟩ | ⟨pk, hp, h0⟩
  · rw [h0] at h; cases h
  · rw [h0] at h; cases h
  · rw [h0] at h
    cases h
    refine ⟨by simp, fun _ => ?_, fun c hc' => ⟨c, hc', rfl⟩⟩
    simp [listener.remaining, listener.pending, listener.queued, hp, hq, hb]
  · rw [h0] at h
    obtain ⟨rfl, rfl⟩ : ret = (listener.readPacket
        { r with packets := some { ch with buf := rest } } d p).1 ∧
        r' = (listener.readPacket { r with packets := some { ch with buf := rest } } d p).2 := by
      rw [Option.some.inj h]; exact ⟨rfl, rfl⟩
    refine ⟨?_, ?_, ?_⟩
    · have hb' := readPacket_bytes { r with packets := some { ch with buf := rest } } d p
      simp only [listener.remaining, ← List.append_assoc, hb']
      simp [listener.pending, listener.queued, hp, hq, hb, readPacket_listener]
    · simp [readPacket_ret]
    · intro c hc'
      rw [hq] at hc'
      cases hc'
      exact ⟨{ ch with buf := rest }, by simp [readPacket_listener], rfl⟩
  · rw [h0] at h
    obtain ⟨rfl, rfl⟩ : ret = (r.readPacket pk p).1 ∧ r' = (r.readPacket pk p).2 := by
      rw [Option.some.inj h]; exact ⟨rfl, rfl⟩
    refine ⟨?_, ?_, ?_⟩
    · have hb' := readPacket_bytes r pk p
      simp only [listener.remaining, ← List.append_assoc, hb']
      simp [listener.pending, listener.queued, hp, readPacket_listener]
    · simp [readPacket_ret]
    · intro c hc'
      exact ⟨c, by simp [readPacket_listener, hc'], rfl⟩

/-- With the queue closed, `Read` always returns. -/
theorem Read_closed (r : listener) (p : List Byte) (ch : Chan)
    (hq : r.packets = some ch) (hc : ch.closed = true) :
    ∃ ret r', r.Read p = some (ret, r') := by
  rcases Read_cases r p with ⟨_, h1, _⟩ | ⟨c, _, h1, _, h2, _⟩ | ⟨c, _, _, _, _, h0⟩ |
    ⟨c, d, rest, _, _, _, h0⟩ | ⟨pk, _, h0⟩
  · rw [hq] at h1; cases h1
  · rw [hq] at h1; cases h1; rw [hc] at h2; cases h2
  · exact ⟨_, _, h0⟩
  · exact ⟨_, _, h0⟩
  · exact ⟨_, _, h0⟩

theorem returned_append (xs ys : List ReadRet) : returned (xs ++ ys) = returned xs ++ returned ys := by
  simp [returned]

/-- Successive reads on a closed queue: every call returns, the bytes handed over
extend what was handed over before by a front piece of what remained, and once a
call reports end-of-stream nothing remains. -/
theorem run_reads_closed (bufs : List (List Byte)) :
    ∀ (s : Sys) (ch : Chan), s.r.packets = some ch → ch.closed = true →
      (s.run (bufs.map Ev.read)).rets.length = s.rets.length + bufs.length ∧
      (∃ extra, returned (s.run (bufs.map Ev.read)).rets = returned s.rets ++ extra ∧
        extra ++ (s.run (bufs.map Ev.read)).r.remaining = s.r.remaining) ∧
      (∀ x ∈ (s.run (bufs.map Ev.read)).rets, x.err = some GoError.EOF →
        x ∈ s.rets ∨ (s.run (bufs.map Ev.read)).r.remaining = []) := by
  induction bufs with
  | nil =>
    intro s ch _ _
    refine ⟨by simp [Sys.run], ⟨[], by simp [Sys.run], by simp [Sys.run]⟩, ?_⟩
    intro x hx _
    exact Or.inl (by simpa [Sys.run] using hx)
  | cons p bufs ih =>
    intro s ch hq hc
    obtain ⟨ret, r', hr⟩ := Read_closed s.r p ch hq hc
    obtain ⟨hbytes, heof, hch⟩ := Read_remaining s.r r' p ret hr
    obtain ⟨ch', hq', hc'⟩ := hch ch hq
    have hstep : s.step (Ev.read p) =
        { r := r', rets := s.rets ++ [ret],
          last := match s.r.dequeued with
            | some d => some d
            | none => s.last } := by
      simp [Sys.step, hr]
    have hrun : s.run ((p :: bufs).map Ev.read) = (s.step (Ev.read p)).run (bufs.map Ev.read) := by
      simp [Sys.run]
    rw [hrun, hstep]
    obtain ⟨hlen, ⟨extra, hext, hrem⟩, hE⟩ :=
      ih { r := r', rets := s.rets ++ [ret],
           last := match s.r.dequeued with
             | some d => some d
             | none => s.last } ch' hq' (hc'.trans hc)
    refine ⟨?_, ⟨ret.p.take ret.n ++ extra, ?_, ?_⟩, ?_⟩
    · rw [hlen]; simp; omega
    · rw [hext]; simp [returned_append, returned]
    · rw [List.append_assoc, hrem]; exact hbytes
    · intro x hx hxe
      rcases hE x hx hxe with hmem | hnil
      · simp only [List.mem_append, List.mem_singleton] at hmem
        rcases hmem with hmem | rfl
        · exact Or.inl hmem
        · right
          have h0 : r'.remaining = [] := by
            have := heof hxe
            rw [this] at hbytes
            exact (List.append_eq_nil.mp hbytes).2
          rw [h0] at hrem
          exact (List.append_eq_nil.mp hrem).2
      · exact Or.inr hnil

/-- C1. Datagrams `ds` queued in receipt order and the queue then closed: for any
buffers `bufs`, every `Read` call returns, the bytes returned by the successive calls
are a prefix of the concatenation of the datagrams, and once a call has returned
end-of-stream they are exactly that concatenation. -/
theorem Read_reassembly (host : String) (ds bufs : List (List Byte)) :
    (reads (listener.withQueue host ds true) bufs).rets.length = bufs.length ∧
    returned (reads (listener.withQueue host ds true) bufs).rets <+: ds.flatten ∧
    ((∃ x ∈ (reads (listener.withQueue host ds true) bufs).rets, x.err = some GoError.EOF) →
      returned (reads (listener.withQueue host ds true) bufs).rets = ds.flatten) := by
  obtain ⟨hlen, ⟨extra, hext, hrem⟩, hE⟩ :=
    run_reads_closed bufs { r := listener.withQueue host ds true, rets := [], last := none }
      { buf := ds, closed := true } rfl rfl
  have hall : (listener.withQueue host ds true).remaining = ds.flatten := by
    simp [listener.remaining, listener.pending, listener.queued, listener.withQueue]
  simp only [returned, List.map_nil, List.flatten_nil, List.nil_append, List.length_nil,
    Nat.zero_add] at hext hlen
  rw [hall] at hrem
  refine ⟨hlen, ?_, ?_⟩
  · unfold reads
    rw [show returned _ = extra from hext, ← hrem]
    exact List.prefix_append _ _
  · rintro ⟨x, hx, hxe⟩
    rcases hE x hx hxe with hmem | hnil
    · simp at hmem
    · rw [hnil, List.append_nil] at hrem
      unfold reads
      rw [show returned _ = extra from hext, hrem]

/-- C1, at a concrete run: two datagrams read through buffers of sizes 2, 1, 5 and 4;
the fourth call is the one that reports end-of-stream. -/
theorem Read_reassembly_witness :
    returned (reads (listener.withQueue "10.5.5.9" [[1, 2, 3], [4]] true)
      [[0, 0], [0], [0, 0, 0, 0, 0], [0, 0, 0, 0]]).rets = [1, 2, 3, 4] ∧
    (reads (listener.withQueue "10.5.5.9" [[1, 2, 3], [4]] true)
      [[0, 0], [0], [0, 0, 0, 0, 0], [0, 0, 0, 0]]).rets.map (fun x => (x.n, x.err)) =
      [(2, none), (1, none), (1, none), (0, some GoError.EOF)] :=
  ⟨(Read_reassembly "10.5.5.9" [[1, 2, 3], [4]]
      [[0, 0], [0], [0, 0, 0, 0, 0], [0, 0, 0, 0]]).2.2 ⟨⟨[0, 0, 0, 0], 0, some GoError.EOF⟩,
      by decide, rfl⟩, by decide⟩

/-- C2. `Read` blocks exactly when nothing is pending and the queue is nil or open
and empty. When it returns, it reports end-of-stream, with count 0, exactly when
nothing is pending and the queue is closed and empty; in every other case the error
is nil, so no other error is ever returned, and end-of-stream is never reported while
pending or queued bytes remain. -/
theorem Read_EOF_iff (r : listener) (p : List Byte) :
    (r.Read p = none ↔
      r.packet = none ∧
        (r.packets = none ∨ ∃ ch, r.packets = some ch ∧ ch.buf = [] ∧ ch.closed = false)) ∧
    ∀ ret r', r.Read p = some (ret, r') →
      (ret.err = some GoError.EOF ↔
        r.packet = none ∧ ∃ ch, r.packets = some ch ∧ ch.buf = [] ∧ ch.closed = true) ∧
      (ret.err = some GoError.EOF → ret.n = 0 ∧ ret.p = p ∧ r' = r) ∧
      (ret.err ≠ some GoError.EOF → ret.err = none) ∧
      (ret.err = some GoError.EOF → r.pending = [] ∧ r.queued = []) := by
  rcases Read_cases r p with ⟨hp, hq, h0⟩ | ⟨ch, hp, hq, hb, hc, h0⟩ | ⟨ch, hp, hq, hb, hc, h0⟩ |
    ⟨ch, d, rest, hp, hq, hb, h0⟩ | ⟨pk, hp, h0⟩
  · refine ⟨⟨fun _ => ⟨hp, Or.inl hq⟩, fun _ => h0⟩, ?_⟩
    intro ret r' h; rw [h0] at h; cases h
  · refine ⟨⟨fun _ => ⟨hp, Or.inr ⟨ch, hq, hb, hc⟩⟩, fun _ => h0⟩, ?_⟩
    intro ret r' h; rw [h0] at h; cases h
  · constructor
    · constructor
      · intro h; rw [h0] at h; cases h
      · rintro ⟨_, h | ⟨c, h1, _, h2⟩⟩
        · rw [hq] at h; cases h
        · rw [hq] at h1; cases h1; rw [hc] at h2; cases h2
    · intro ret r' h
      rw [h0] at h
      obtain ⟨rfl, rfl⟩ := Prod.mk.inj (Option.some.inj h)
      refine ⟨⟨fun _ => ⟨hp, ch, hq, hb, hc⟩, fun _ => rfl⟩, fun _ => ⟨rfl, rfl, rfl⟩,
        fun h => absurd rfl h, fun _ => ?_⟩
      simp [listener.pending, listener.queued, hp, hq, hb]
  · constructor
    · constructor
      · intro h; rw [h0] at h; cases h
      · rintro ⟨_, h | ⟨c, h1, h2, _⟩⟩
        · rw [hq] at h; cases h
        · rw [hq] at h1; cases h1; rw [hb] at h2; cases h2
    · intro ret r' h
      rw [h0] at h
      have hret : ret.err = none := by
        have hfst : (_ : ReadRet × listener).1 = ret := congrArg Prod.fst (Option.some.inj h)
        rw [← hfst, readPacket_ret]
      have hne : ret.err ≠ some GoError.EOF := by rw [hret]; exact fun h => nomatch h
      refine ⟨⟨fun h => absurd h hne, ?_⟩, fun h => absurd h hne, fun _ => hret,
        fun h => absurd h hne⟩
      rintro ⟨_, c, h1, h2, _⟩
      rw [hq] at h1; cases h1; rw [hb] at h2; cases h2
  · constructor
    · constructor
      · intro h; rw [h0] at h; cases h
      · rintro ⟨h, _⟩
        rw [hp] at h; cases h
    · intro ret r' h
      rw [h0] at h
      have hret : ret.err = none := by
        have hfst : (_ : ReadRet × listener).1 = ret := congrArg Prod.fst (Option.some.inj h)
        rw [← hfst, readPacket_ret]
      have hne : ret.err ≠ some GoError.EOF := by rw [hret]; exact fun h => nomatch h
      refine ⟨⟨fun h => absurd h hne, ?_⟩, fun h => absurd h hne, fun _ => hret,
        fun h => absurd h hne⟩
      rintro ⟨h, _⟩
      rw [hp] at h; cases h

/-- C2, at concrete listeners: a closed and drained queue gives end-of-stream, a
closed queue that still holds a datagram gives that datagram with a nil error. -/
theorem Read_EOF_iff_witness :
    ((⟨[7], 0, some GoError.EOF⟩ : ReadRet).err = some GoError.EOF ↔
      (listener.withQueue "10.5.5.9" [] true).packet = none ∧
        ∃ ch, (listener.withQueue "10.5.5.9" [] true).packets = some ch ∧ ch.buf = [] ∧
          ch.closed = true) ∧
    (listener.withQueue "10.5.5.9" [[5]] true).Read [7] =
      some (⟨[5], 1, none⟩, listener.withQueue "10.5.5.9" [] true) :=
  ⟨((Read_EOF_iff (listener.withQueue "10.5.5.9" [] true) [7]).2 ⟨[7], 0, some GoError.EOF⟩
      (listener.withQueue "10.5.5.9" [] true) (by decide)).1, by decide⟩

/-- C7. Let `d` be the datagram available to a `Read` call: the pending remainder
if there is one, otherwise the head of the queue. The call returns
`n = min(len(p), len(d))` with a nil error, the buffer holds the first `n` bytes of
`d` followed by its old contents, the pending remainder becomes `d[n:]` when `d` is
longer than the buffer and nil otherwise, and the queue loses at most the datagram
just dequeued: the bytes of one call come from one datagram only. -/
theorem Read_single_call (r : listener) (p d : List Byte)
    (h : r.packet = some d ∨
      (r.packet = none ∧ ∃ ch rest, r.packets = some ch ∧ ch.buf = d :: rest)) :
    ∃ ret r', r.Read p = some (ret, r') ∧
      ret.n = min p.length d.length ∧
      ret.err = none ∧
      ret.p = d.take ret.n ++ p.drop ret.n ∧
      ret.p.take ret.n = d.take ret.n ∧
      r'.packet = (if p.length < d.length then some (d.drop ret.n) else none) ∧
      r'.queued = (match r.packet with
        | some _ => r.queued
        | none => r.queued.tail) := by
  rcases h with hp | ⟨hp, ch, rest, hq, hb⟩
  · rcases Read_cases r p with ⟨h1, _⟩ | ⟨_, h1, _⟩ | ⟨_, h1, _⟩ | ⟨_, _, _, h1, _⟩ | ⟨pk, hpk, h0⟩
    · rw [hp] at h1; cases h1
    · rw [hp] at h1; cases h1
    · rw [hp] at h1; cases h1
    · rw [hp] at h1; cases h1
    · rw [hp] at hpk
      cases hpk
      refine ⟨(r.readPacket d p).1, (r.readPacket d p).2, h0, ?_, ?_, ?_, ?_, ?_, ?_⟩
      · rw [readPacket_ret]
      · rw [readPacket_ret]
      · rw [readPacket_ret]
      · rw [readPacket_ret]
        simp only
        rw [List.take_append_of_le_length (by simp)]
        simp [List.take_take]
      · rw [readPacket_listener, readPacket_ret]
        by_cases hl : p.length < d.length
        · have hm : min p.length d.length = p.length := by omega
          simp [hl, hm]
        · simp [hl]
      · rw [readPacket_listener]
        simp [listener.queued, hp]
  · rcases Read_cases r p with ⟨_, h1, _⟩ | ⟨c, _, h1, h2, _⟩ | ⟨c, _, h1, h2, _⟩ |
      ⟨c, d', rest', _, h1, h2, h0⟩ | ⟨pk, hpk, _⟩
    · rw [hq] at h1; cases h1
    · rw [hq] at h1; cases h1; rw [hb] at h2; cases h2
    · rw [hq] at h1; cases h1; rw [hb] at h2; cases h2
    · rw [hq] at h1
      cases h1
      rw [hb] at h2
      cases h2
      refine ⟨(listener.readPacket { r with packets := some { ch with buf := rest } } d p).1,
        (listener.readPacket { r with packets := some { ch with buf := rest } } d p).2,
        h0, ?_, ?_, ?_, ?_, ?_, ?_⟩
      · rw [readPacket_ret]
      · rw [readPacket_ret]
      · rw [readPacket_ret]
      · rw [readPacket_ret]
        simp only
        rw [List.take_append_of_le_length (by simp)]
        simp [List.take_take]
      · rw [readPacket_listener, readPacket_ret]
        by_cases hl : p.length < d.length
        · have hm : min p.length d.length = p.length := by omega
          simp [hl, hm]
        · simp [hl]
      · rw [readPacket_listener]
        simp [listener.queued, hp, hq, hb]
    · rw [hp] at hpk; cases hpk

/-- C7, at a concrete call: a buffer of five bytes against a queue holding `[1, 2]`
and `[3]` receives the two bytes of the first datagram only. -/
theorem Read_single_call_witness :
    ∃ ret r', (listener.withQueue "10.5.5.9" [[1, 2], [3]] false).Read [0, 0, 0, 0, 0] =
        some (ret, r') ∧
      ret.n = min [0, 0, 0, 0, (0 : Byte)].length [1, (2 : Byte)].length ∧
      ret.err = none ∧
      ret.p = [1, (2 : Byte)].take ret.n ++ [0, 0, 0, 0, (0 : Byte)].drop ret.n ∧
      ret.p.take ret.n = [1, (2 : Byte)].take ret.n ∧
      r'.packet = (if [0, 0, 0, 0, (0 : Byte)].length < [1, (2 : Byte)].length
        then some ([1, (2 : Byte)].drop ret.n) else none) ∧
      r'.queued = (match (listener.withQueue "10.5.5.9" [[1, 2], [3]] false).packet with
        | some _ => (listener.withQueue "10.5.5.9" [[1, 2], [3]] false).queued
        | none => (listener.withQueue "10.5.5.9" [[1, 2], [3]] false).queued.tail) :=
  Read_single_call (listener.withQueue "10.5.5.9" [[1, 2], [3]] false) [0, 0, 0, 0, 0] [1, 2]
    (Or.inr ⟨rfl, ⟨[[1, 2], [3]], false⟩, [[3]], rfl, rfl⟩)

/-- What a `read` event does to the state of a run, case by case. -/
theorem step_read_cases (s : Sys) (p : List Byte) :
    (s.r.packet = none ∧ s.r.Read p = none ∧ s.step (Ev.read p) = s) ∨
    (s.r.packet = none ∧ s.r.queued = [] ∧ (s.step (Ev.read p)).r = s.r ∧
      s.r.Read p = some ({ p := p, n := 0, err := some GoError.EOF }, s.r)) ∨
    (∃ ch d rest, s.r.packet = none ∧ s.r.packets = some ch ∧ ch.buf = d :: rest ∧
      s.r.Read p =
        some (listener.readPacket { s.r with packets := some { ch with buf := rest } } d p) ∧
      (s.step (Ev.read p)).last = some d ∧
      (s.step (Ev.read p)).r.packet =
        (if p.length < d.length then some (d.drop p.length) else none) ∧
      (s.step (Ev.read p)).r.queued = rest) ∨
    (∃ pk, s.r.packet = some pk ∧ s.r.Read p = some (s.r.readPacket pk p) ∧
      (s.step (Ev.read p)).last = s.last ∧
      (s.step (Ev.read p)).r.packet =
        (if p.length < pk.length then some (pk.drop p.length) else none) ∧
      (s.step (Ev.read p)).r.queued = s.r.queued) := by
  rcases Read_cases s.r p with ⟨hp, _, h0⟩ | ⟨ch, hp, _, _, _, h0⟩ | ⟨ch, hp, hq, hb, _, h0⟩ |
    ⟨ch, d, rest, hp, hq, hb, h0⟩ | ⟨pk, hp, h0⟩
  · exact Or.inl ⟨hp, h0, by simp [Sys.step, h0]⟩
  · exact Or.inl ⟨hp, h0, by simp [Sys.step, h0]⟩
  · exact Or.inr (Or.inl ⟨hp, by simp [listener.queued, hq, hb], by simp [Sys.step, h0], h0⟩)
  · refine Or.inr (Or.inr (Or.inl ⟨ch, d, rest, hp, hq, hb, h0, ?_, ?_, ?_⟩))
    · simp [Sys.step, h0, listener.dequeued, hp, hq, hb]
    · simp [Sys.step, h0, readPacket_listener]
    · simp [Sys.step, h0, readPacket_listener, listener.queued]
  · refine Or.inr (Or.inr (Or.inr ⟨pk, hp, h0, ?_, ?_, ?_⟩))
    · simp [Sys.step, h0, listener.dequeued, hp]
    · simp [Sys.step, h0, readPacket_listener]
    · simp [Sys.step, h0, readPacket_listener, listener.queued]

/-- A `send` or `close` event leaves the pending remainder and the bookkeeping alone. -/
theorem step_send_close (s : Sys) (e : Ev) (he : ∀ p, e ≠ Ev.read p) :
    (s.step e).r.packet = s.r.packet ∧ (s.step e).last = s.last := by
  cases e with
  | read p => exact absurd rfl (he p)
  | send d =>
    simp only [Sys.step]
    cases s.r.packets with
    | none => exact ⟨rfl, rfl⟩
    | some ch =>
      simp only
      cases ch.send d <;> exact ⟨rfl, rfl⟩
  | close =>
    simp only [Sys.step]
    cases s.r.packets <;> exact ⟨rfl, rfl⟩

theorem drop_suffix_ne_nil (pk : List Byte) (n : Nat) (h : n < pk.length) : pk.drop n ≠ [] := by
  intro h0
  have := congrArg List.length h0
  simp at this
  omega

/-- Every event keeps the pending remainder absent or a non-empty suffix of the
datagram most recently dequeued. -/
theorem step_pendingOK (s : Sys) (e : Ev) (h : s.pendingOK) : (s.step e).pendingOK := by
  cases e with
  | send d =>
    obtain ⟨h1, h2⟩ := step_send_close s (Ev.send d) (fun _ h => nomatch h)
    unfold Sys.pendingOK
    rw [h1, h2]
    exact h
  | close =>
    obtain ⟨h1, h2⟩ := step_send_close s Ev.close (fun _ h => nomatch h)
    unfold Sys.pendingOK
    rw [h1, h2]
    exact h
  | read p =>
    rcases step_read_cases s p with ⟨_, _, h0⟩ | ⟨hp, _, h0, _⟩ |
      ⟨ch, d, rest, hp, _, _, _, hl, hpk, _⟩ | ⟨pk, hp, _, hl, hpk, _⟩
    · rw [h0]; exact h
    · left; rw [h0]; exact hp
    · by_cases hlt : p.length < d.length
      · right
        exact ⟨d.drop p.length, d, by rw [hpk]; simp [hlt], hl, drop_suffix_ne_nil d _ hlt,
          List.drop_suffix _ _⟩
      · left; rw [hpk]; simp [hlt]
    · by_cases hlt : p.length < pk.length
      · right
        rcases h with h | ⟨pk', d, h1, h2, _, h4⟩
        · rw [hp] at h; cases h
        · rw [hp] at h1
          cases h1
          exact ⟨pk.drop p.length, d, by rw [hpk]; simp [hlt], by rw [hl]; exact h2,
            drop_suffix_ne_nil pk _ hlt, (List.drop_suffix _ _).trans h4⟩
      · left; rw [hpk]; simp [hlt]

/-- After a `Read` with a non-empty buffer the pending remainder, if any, is a
proper suffix of the datagram most recently dequeued. -/
theorem step_read_proper (s : Sys) (p : List Byte) (hne : p ≠ []) (h : s.pendingOK) :
    (s.step (Ev.read p)).pendingProper := by
  have hpos : 0 < p.length := List.length_pos.mpr hne
  have hshort : ∀ (pk d : List Byte), pk <:+ d → p.length < pk.length → pk.drop p.length ≠ d := by
    intro pk d hsuf hlt heq
    have h1 := congrArg List.length heq
    have h2 := hsuf.length_le
    simp at h1
    omega
  rcases step_read_cases s p with ⟨hp, _, h0⟩ | ⟨hp, _, h0, _⟩ |
    ⟨ch, d, rest, hp, _, _, _, hl, hpk, _⟩ | ⟨pk, hp, _, hl, hpk, _⟩
  · left; rw [h0]; exact hp
  · left; rw [h0]; exact hp
  · by_cases hlt : p.length < d.length
    · right
      exact ⟨d.drop p.length, d, by rw [hpk]; simp [hlt], hl, drop_suffix_ne_nil d _ hlt,
        List.drop_suffix _ _, hshort d d (List.suffix_refl d) hlt⟩
    · left; rw [hpk]; simp [hlt]
  · by_cases hlt : p.length < pk.length
    · right
      rcases h with h | ⟨pk', d, h1, h2, _, h4⟩
      · rw [hp] at h; cases h
      · rw [hp] at h1
        cases h1
        exact ⟨pk.drop p.length, d, by rw [hpk]; simp [hlt], by rw [hl]; exact h2,
          drop_suffix_ne_nil pk _ hlt, (List.drop_suffix _ _).trans h4, hshort pk d h4 hlt⟩
    · left; rw [hpk]; simp [hlt]

theorem run_pendingOK (evs : List Ev) : ∀ s : Sys, s.pendingOK → (s.run evs).pendingOK := by
  induction evs with
  | nil => intro s h; exact h
  | cons e evs ih => intro s h; exact ih (s.step e) (step_pendingOK s e h)

/-- Events whose sent datagrams are non-empty keep every queued datagram non-empty. -/
theorem step_queue_nonempty (s : Sys) (e : Ev) (hq : ∀ d ∈ s.r.queued, d ≠ [])
    (he : ∀ d, e = Ev.send d → d ≠ []) : ∀ d ∈ (s.step e).r.queued, d ≠ [] := by
  cases e with
  | read p =>
    rcases step_read_cases s p with ⟨_, _, h0⟩ | ⟨_, _, h0, _⟩ |
      ⟨ch, d, rest, _, hq', hb, _, _, _, hr⟩ | ⟨pk, _, _, _, _, hr⟩
    · rw [h0]; exact hq
    · rw [h0]; exact hq
    · rw [hr]
      intro x hx
      exact hq x (by simp [listener.queued, hq', hb, hx])
    · rw [hr]; exact hq
  | send d =>
    have hd : d ≠ [] := he d rfl
    simp only [Sys.step]
    cases hp : s.r.packets with
    | none => simp [listener.queued, hp]
    | some ch =>
      simp only [listener.queued, hp] at hq
      cases hsend : ch.send d with
      | none => simpa [listener.queued, hp, hsend] using hq
      | some c =>
        simp only [hsend]
        have hc : c.buf = ch.buf ++ [d] := by
          unfold Chan.send at hsend
          split at hsend
          · cases hsend
          · split at hsend
            · cases hsend; rfl
            · cases hsend
        intro x hx
        simp only [listener.queued, hc, List.mem_append, List.mem_singleton] at hx
        rcases hx with hx | rfl
        · exact hq x hx
        · exact hd
  | close =>
    simp only [Sys.step]
    cases hp : s.r.packets with
    | none => simp [listener.queued, hp]
    | some ch => simpa [listener.queued, hp] using hq

theorem run_queue_nonempty (evs : List Ev) :
    ∀ s : Sys, (∀ d ∈ s.r.queued, d ≠ []) → (∀ d, Ev.send d ∈ evs → d ≠ []) →
      ∀ d ∈ (s.run evs).r.queued, d ≠ [] := by
  induction evs with
  | nil => intro s h _; exact h
  | cons e evs ih =>
    intro s h he
    exact ih (s.step e)
      (step_queue_nonempty s e h (fun d hd => he d (by rw [hd]; exact List.mem_cons_self _ _)))
      (fun d hd => he d (List.mem_cons_of_mem _ hd))

/-- With a sound pending remainder and no empty datagram queued, a `Read` with a
non-empty buffer that returns without end-of-stream delivers at least one byte. -/
theorem Read_progress (s : Sys) (p : List Byte) (ret : ReadRet) (r' : listener)
    (hok : s.pendingOK) (hq : ∀ d ∈ s.r.queued, d ≠ []) (hne : p ≠ [])
    (h : s.r.Read p = some (ret, r')) (herr : ret.err ≠ some GoError.EOF) :
    1 ≤ ret.n ∧ ret.n ≤ p.length := by
  have hpos : 0 < p.length := List.length_pos.mpr hne
  rcases Read_cases s.r p with ⟨_, _, h0⟩ | ⟨ch, _, _, _, _, h0⟩ | ⟨ch, _, _, _, _, h0⟩ |
    ⟨ch, d, rest, hp, hq', hb, h0⟩ | ⟨pk, hp, h0⟩
  · rw [h0] at h; cases h
  · rw [h0] at h; cases h
  · rw [h0] at h
    have hfst : (_ : ReadRet × listener).1 = ret := congrArg Prod.fst (Option.some.inj h)
    exact absurd (by rw [← hfst]) herr
  · rw [h0] at h
    have hfst : (_ : ReadRet × listener).1 = ret := congrArg Prod.fst (Option.some.inj h)
    have hd : 0 < d.length :=
      List.length_pos.mpr (hq d (by simp [listener.queued, hq', hb]))
    rw [← hfst, readPacket_ret]
    simp only
    omega
  · rw [h0] at h
    have hfst : (_ : ReadRet × listener).1 = ret := congrArg Prod.fst (Option.some.inj h)
    have hd : 0 < pk.length := by
      rcases hok with hn | ⟨pk', d, h1, _, h3, _⟩
      · rw [hp] at hn; cases hn
      · rw [hp] at h1; cases h1; exact List.length_pos.mpr h3
    rw [← hfst, readPacket_ret]
    simp only
    omega

/-- C10, as amended. Start from a listener with no pending remainder and let any
sequence of `Read` calls, sends and a close happen. The pending remainder is then
absent or a non-empty suffix of the datagram most recently dequeued; after a `Read`
whose buffer is non-empty it is absent or a non-empty proper suffix; and when every
queued datagram is non-empty, a `Read` with a non-empty buffer that returns without
end-of-stream returns `n` with `1 ≤ n ≤ len(p)`. -/
theorem pending_invariant (r0 : listener) (h0 : r0.packet = none) (evs : List Ev) :
    (Sys.run { r := r0, rets := [], last := none } evs).pendingOK ∧
    (∀ p, p ≠ [] →
      ((Sys.run { r := r0, rets := [], last := none } evs).step (Ev.read p)).pendingProper) ∧
    ((∀ d ∈ r0.queued, d ≠ []) → (∀ d, Ev.send d ∈ evs → d ≠ []) →
      ∀ p ret r', p ≠ [] →
        (Sys.run { r := r0, rets := [], last := none } evs).r.Read p = some (ret, r') →
        ret.err ≠ some GoError.EOF → 1 ≤ ret.n ∧ ret.n ≤ p.length) := by
  have hinit : (Sys.mk r0 [] none).pendingOK := Or.inl h0
  have hok := run_pendingOK evs _ hinit
  refine ⟨hok, fun p hp => step_read_proper _ p hp hok, ?_⟩
  intro hq hs p ret r' hp hr herr
  exact Read_progress _ p ret r' hok (run_queue_nonempty evs _ hq hs) hp hr herr

/-- C10, at a concrete run: a datagram of three bytes is sent, read through a buffer
of two bytes, and the next `Read` with a buffer of four bytes returns the one byte
left. -/
theorem pending_invariant_witness :
    (Sys.run { r := listener.withQueue "10.5.5.9" [] false, rets := [], last := none }
      [Ev.send [1, 2, 3], Ev.read [0, 0]]).r.packet = some [3] ∧
    1 ≤ (⟨[3, 0, 0, 0], 1, none⟩ : ReadRet).n ∧ (⟨[3, 0, 0, 0], 1, none⟩ : ReadRet).n ≤ 4 :=
  ⟨by decide,
    (pending_invariant (listener.withQueue "10.5.5.9" [] false) rfl
      [Ev.send [1, 2, 3], Ev.read [0, 0]]).2.2 (by decide)
      (by intro d hd; simp at hd; rw [hd]; decide)
      [0, 0, 0, 0] ⟨[3, 0, 0, 0], 1, none⟩
      { host := "10.5.5.9", packet := none, packets := some { buf := [], closed := false } }
      (by decide) (by decide) (by decide)⟩

/-- C10 as stated fails for a zero-length buffer: `Read` with an empty buffer takes
the datagram `[1, 2]` out of the queue and retains all of it, so the pending
remainder is the whole datagram and not a proper suffix of it. -/
theorem pendingProper_fails_on_empty_buffer :
    (listener.withQueue "10.5.5.9" [[1, 2]] true).packet = none ∧
    (reads (listener.withQueue "10.5.5.9" [[1, 2]] true) [[]]).rets = [⟨[], 0, none⟩] ∧
    (reads (listener.withQueue "10.5.5.9" [[1, 2]] true) [[]]).r.packet = some [1, 2] ∧
    (reads (listener.withQueue "10.5.5.9" [[1, 2]] true) [[]]).last = some [1, 2] ∧
    ¬ (reads (listener.withQueue "10.5.5.9" [[1, 2]] true) [[]]).pendingProper := by
  refine ⟨rfl, by decide, by decide, by decide, ?_⟩
  rintro (h | ⟨pk, d, h1, h2, _, _, h5⟩)
  · exact absurd h (by decide)
  · have e1 : (reads (listener.withQueue "10.5.5.9" [[1, 2]] true) [[]]).r.packet =
        some [1, 2] := by decide
    have e2 : (reads (listener.withQueue "10.5.5.9" [[1, 2]] true) [[]]).last =
        some [1, 2] := by decide
    rw [e1] at h1
    rw [e2] at h2
    cases h1
    cases h2
    exact h5 rfl

/-! ## `command` -/

theorem command_trace (r : listener) (env : Env) (api : String) (tr : List Action) :
    (r.command env api tr).2 = tr ++ [Action.get (r.url api)] := by
  simp only [listener.command]
  split
  · rfl
  · split
    · rfl
    · split
      · rfl
      · split <;> rfl

/-- The result of `command` once the HTTP exchange has completed with `res`. -/
theorem command_result (r : listener) (env : Env) (api : String) (tr : List Action)
    (res : Response) (hget : env.get (tr ++ [Action.get (r.url api)]) = Except.ok res) :
    (r.command env api tr).1 =
      if res.StatusCode ≠ 200 then
        Except.error (GoError.text ("gopro: wrong response: " ++ res.Status))
      else
        match env.decode res.Body with
        | Except.error err => Except.error err
        | Except.ok sr =>
          if sr.Error > 0 then
            Except.error (GoError.text
              ("gopro: error in status response: " ++ toString sr.Error))
          else Except.ok sr.Status := by
  simp only [listener.command, hget]
  split
  · rfl
  · split
    · rfl
    · split <;> rfl

/-- After a completed exchange, `command` fails exactly in the three listed cases. -/
theorem command_failure_cases (r : listener) (env : Env) (api : String) (tr : List Action)
    (res : Response) (hget : env.get (tr ++ [Action.get (r.url api)]) = Except.ok res) :
    (∃ err, (r.command env api tr).1 = Except.error err) ↔
      res.StatusCode ≠ 200 ∨ (∃ err, env.decode res.Body = Except.error err) ∨
        ∃ sr, env.decode res.Body = Except.ok sr ∧ sr.Error > 0 := by
  rw [command_result r env api tr res hget]
  by_cases hs : res.StatusCode ≠ 200
  · simp [hs]
  · cases hd : env.decode res.Body with
    | error err => simp [hs]
    | ok sr =>
      by_cases he : sr.Error > 0
      · simp [hs, he]
      · simp [hs, he]

/-- C3, as amended. After a completed HTTP exchange `command` fails exactly when the
HTTP status is not 200, or the body does not decode, or the decoded error code is
greater than 0; when it does not fail it returns the decoded status value. One
request is made in either case. -/
theorem command_fails_iff (r : listener) (env : Env) (api : String) (tr : List Action)
    (res : Response) (hget : env.get (tr ++ [Action.get (r.url api)]) = Except.ok res) :
    ((∃ err, (r.command env api tr).1 = Except.error err) ↔
      res.StatusCode ≠ 200 ∨ (∃ err, env.decode res.Body = Except.error err) ∨
        ∃ sr, env.decode res.Body = Except.ok sr ∧ sr.Error > 0) ∧
    (∀ st, (r.command env api tr).1 = Except.ok st →
      ∃ sr, env.decode res.Body = Except.ok sr ∧ st = sr.Status) ∧
    (r.command env api tr).2 = tr ++ [Action.get (r.url api)] := by
  refine ⟨command_failure_cases r env api tr res hget, ?_, command_trace r env api tr⟩
  · intro st
    rw [command_result r env api tr res hget]
    by_cases hs : res.StatusCode ≠ 200
    · simp [hs]
    · cases hd : env.decode res.Body with
      | error err => simp [hs]
      | ok sr =>
        by_cases he : sr.Error > 0
        · simp [hs, he]
        · simp only [hs, he, if_false]
          intro h
          cases h
          exact ⟨sr, rfl, rfl⟩

/-- C3, at a concrete exchange: a `200 OK` whose body carries error code 5 fails. -/
theorem command_fails_iff_witness :
    ∃ err, (sampleListener.command
      (scripted [ok200 "\x7b\"status\":0,\"error\":5\x7d"] none none)
      "/gopro/webcam/status" []).1 = Except.error err :=
  (command_fails_iff sampleListener
    (scripted [ok200 "\x7b\"status\":0,\"error\":5\x7d"] none none)
    "/gopro/webcam/status" []
    { StatusCode := 200, Status := "200 OK", Body := "\x7b\"status\":0,\"error\":5\x7d" }
    rfl).1.2 (Or.inr (Or.inr ⟨{ Status := 0, Error := 5 }, by decide, by decide⟩))

/-- C3 as stated fails for a negative error code: a `200 OK` whose body decodes to
status 2 and error code -1 is not a failure; `command` returns status 2. -/
theorem command_accepts_negative_error :
    (scripted [ok200 "\x7b\"status\":2,\"error\":-1\x7d"] none none).get
        ([] ++ [Action.get (sampleListener.url "/gopro/webcam/status")]) =
      Except.ok { StatusCode := 200, Status := "200 OK",
                  Body := "\x7b\"status\":2,\"error\":-1\x7d" } ∧
    (scripted [ok200 "\x7b\"status\":2,\"error\":-1\x7d"] none none).decode
        "\x7b\"status\":2,\"error\":-1\x7d" = Except.ok { Status := 2, Error := -1 } ∧
    (-1 : Error) ≠ ErrorNone ∧
    (sampleListener.command (scripted [ok200 "\x7b\"status\":2,\"error\":-1\x7d"] none none)
      "/gopro/webcam/status" []).1 = Except.ok 2 := by
  refine ⟨rfl, by decide, by decide, by decide⟩

/-! ## The receive loop -/

theorem make_length (n : Nat) : (make n).length = n := by simp [make]

theorem readFrom_length (b d : List Byte) : (readFrom b d).2.length = b.length :=
  copy_length b d

/-- The element queued for a datagram: a fresh slice holding the first `n` bytes of
the receive buffer, which are the first `len(b)` bytes of the payload. -/
theorem worker_packet (b d : List Byte) :
    (copy (make (readFrom b d).1) (readFrom b d).2).2 = (readFrom b d).2.take (readFrom b d).1 ∧
    (copy (make (readFrom b d).1) (readFrom b d).2).2 = d.take b.length ∧
    (readFrom b d).1 = min b.length d.length := by
  have hn : (readFrom b d).1 = min b.length d.length := rfl
  have hl : (readFrom b d).2.length = b.length := readFrom_length b d
  have h1 : (copy (make (readFrom b d).1) (readFrom b d).2).2 =
      (readFrom b d).2.take (readFrom b d).1 := by
    simp only [copy, make_length, hl]
    have hm : min (readFrom b d).1 b.length = (readFrom b d).1 := by rw [hn]; omega
    rw [hm]
    simp [make]
  refine ⟨h1, ?_, hn⟩
  rw [h1, hn]
  show ((copy b d).2).take _ = _
  simp only [copy]
  rw [List.take_append_of_le_length (by simp)]
  rw [List.take_take]
  by_cases h : b.length ≤ d.length
  · simp [Nat.min_eq_left h]
  · have h' : d.length ≤ b.length := by omega
    simp [Nat.min_eq_right h', List.take_of_length_le h']

theorem bufferAfter_length (ds : List (List Byte)) :
    ∀ b : List Byte, (bufferAfter b ds).length = b.length := by
  induction ds with
  | nil => intro b; rfl
  | cons d ds ih =>
    intro b
    show (bufferAfter (readFrom b d).2 ds).length = b.length
    rw [ih, readFrom_length]

/-- The loop on a run of datagrams followed by further outcomes: each datagram is
queued as its first `len(b)` bytes, in order, and the loop goes on with the rest. -/
theorem workerLoop_datagrams (r : listener) (ds : List (List Byte)) (rest : List Recv) :
    ∀ (b : List Byte) (tr : List Action),
      r.workerLoop b tr (ds.map Recv.datagram ++ rest) =
        r.workerLoop (bufferAfter b ds)
          (tr ++ ds.map (fun d => Action.send (d.take b.length))) rest := by
  induction ds with
  | nil => intro b tr; simp [bufferAfter]
  | cons d ds ih =>
    intro b tr
    have hstep : r.workerLoop b tr (Recv.datagram d :: (ds.map Recv.datagram ++ rest)) =
        r.workerLoop (readFrom b d).2
          (tr ++ [Action.send (copy (make (readFrom b d).1) (readFrom b d).2).2])
          (ds.map Recv.datagram ++ rest) := rfl
    rw [List.map_cons, List.cons_append, hstep, ih, (worker_packet b d).2.1, readFrom_length]
    simp [bufferAfter]

/-- Every list of outcomes is its accepted datagrams followed by nothing or by a
failure and whatever comes after it. -/
theorem recvs_split (recvs : List Recv) :
    recvs = (accepted recvs).map Recv.datagram ∨
    ∃ f post, f.failed = true ∧ recvs = (accepted recvs).map Recv.datagram ++ f :: post := by
  induction recvs with
  | nil => left; rfl
  | cons x xs ih =>
    cases x with
    | deadlineErr e => right; exact ⟨Recv.deadlineErr e, xs, rfl, rfl⟩
    | readErr e => right; exact ⟨Recv.readErr e, xs, rfl, rfl⟩
    | datagram d =>
      rcases ih with h | ⟨f, post, hf, h⟩
      · left
        show Recv.datagram d :: xs = Recv.datagram d :: (accepted xs).map Recv.datagram
        rw [← h]
      · right
        refine ⟨f, post, hf, ?_⟩
        show Recv.datagram d :: xs = Recv.datagram d :: ((accepted xs).map Recv.datagram ++ f :: post)
        rw [← h]

theorem accepted_datagrams (ds : List (List Byte)) :
    accepted (ds.map Recv.datagram) = ds := by
  induction ds with
  | nil => rfl
  | cons d ds ih => simp [accepted, ih]

theorem accepted_datagrams_failed (ds : List (List Byte)) (f : Recv) (post : List Recv)
    (hf : f.failed = true) : accepted (ds.map Recv.datagram ++ f :: post) = ds := by
  induction ds with
  | nil =>
    cases f with
    | datagram d => cases hf
    | deadlineErr e => rfl
    | readErr e => rfl
  | cons d ds ih => simp [accepted, ih]

/-- The whole of `worker` when the outcomes hold no failure: still in the loop. -/
theorem worker_running (r : listener) (env : Env) (ds : List (List Byte)) (tr : List Action) :
    r.worker env (ds.map Recv.datagram) tr =
      (false, tr ++ ds.map (fun d => Action.send (d.take 1500))) := by
  have h := workerLoop_datagrams r ds [] (make 1500) tr
  simp only [List.append_nil, make_length] at h
  simp only [listener.worker, h, listener.workerLoop]

/-- The whole of `worker` when the outcomes hold a failure. -/
theorem worker_exited (r : listener) (env : Env) (ds : List (List Byte)) (f : Recv)
    (post : List Recv) (hf : f.failed = true) (tr : List Action) :
    r.worker env (ds.map Recv.datagram ++ f :: post) tr =
      (true, tr ++ ds.map (fun d => Action.send (d.take 1500)) ++
        [Action.closeChan, Action.get (r.url "/gopro/webcam/stop")]) := by
  have h := workerLoop_datagrams r ds (f :: post) (make 1500) tr
  simp only [make_length] at h
  cases f with
  | datagram d => cases hf
  | deadlineErr e =>
    simp only [listener.worker, h, listener.workerLoop, command_trace]
    simp
  | readErr e =>
    simp only [listener.worker, h, listener.workerLoop, command_trace]
    simp

theorem sent_append (xs ys : List Action) : sent (xs ++ ys) = sent xs ++ sent ys := by
  induction xs with
  | nil => rfl
  | cons a xs ih => cases a <;> simp [sent, ih]

theorem sent_sends (ps : List (List Byte)) : sent (ps.map Action.send) = ps := by
  induction ps with
  | nil => rfl
  | cons p ps ih => simp [sent, ih]

theorem bufferAfter_succ (b : List Byte) (ds : List (List Byte)) (i : Nat) (hi : i < ds.length) :
    bufferAfter b (ds.take (i + 1)) = (readFrom (bufferAfter b (ds.take i)) ds[i]).2 := by
  have h : ds.take (i + 1) = ds.take i ++ [ds[i]] := by
    rw [← List.take_concat_get ds i hi, List.concat_eq_append]
  simp only [bufferAfter, h, List.foldl_append, List.foldl_cons, List.foldl_nil]

/-- C6. When the outcomes met by `worker` are the datagrams `ds`, then a failure `f`
(a failed `SetReadDeadline` or a failed `ReadFrom`), then anything at all, `worker`
returns having done exactly this: one send per datagram of `ds`, then one
`close(r.packets)`, then one request to `/gopro/webcam/stop`, and nothing more. The
outcome of that request plays no part: the run is the same in every environment.
While no failure has been met, `worker` has not returned and has neither closed the
queue nor issued a command. -/
theorem worker_teardown (r : listener) (env : Env) (ds : List (List Byte)) (f : Recv)
    (post : List Recv) (tr : List Action) (hf : f.failed = true) :
    r.worker env (ds.map Recv.datagram ++ f :: post) tr =
      (true, tr ++ ds.map (fun d => Action.send (d.take 1500)) ++
        [Action.closeChan, Action.get (r.url "/gopro/webcam/stop")]) ∧
    (∀ (env' : Env) (post' : List Recv),
      r.worker env' (ds.map Recv.datagram ++ f :: post') tr =
        r.worker env (ds.map Recv.datagram ++ f :: post) tr) ∧
    r.worker env (ds.map Recv.datagram) tr =
      (false, tr ++ ds.map (fun d => Action.send (d.take 1500))) := by
  refine ⟨worker_exited r env ds f post hf tr, ?_, worker_running r env ds tr⟩
  intro env' post'
  rw [worker_exited r env ds f post hf tr, worker_exited r env' ds f post' hf tr]

/-- C6, at a concrete run: one datagram, then a timeout, then a datagram that is
never looked at. -/
theorem worker_teardown_witness :
    sampleListener.worker (scripted [] none none)
        ([[1, 2]].map Recv.datagram ++ Recv.readErr (GoError.lib 7) :: [Recv.datagram [3]]) [] =
      (true, [] ++ [[1, 2]].map (fun d => Action.send (d.take 1500)) ++
        [Action.closeChan, Action.get (sampleListener.url "/gopro/webcam/stop")]) :=
  (worker_teardown sampleListener (scripted [] none none) [[1, 2]] (Recv.readErr (GoError.lib 7))
    [Recv.datagram [3]] [] rfl).1

/-- C8. For every sequence of receive outcomes, the elements `worker` sends on the
queue are, in receipt order, one per datagram received before the first failure. The
element for a datagram has length `n`, the count `ReadFrom` returned for it, which is
at most 1500; its content is the first `n` bytes of the receive buffer right after
that receipt, whatever is received into the buffer later; and it is the first 1500
bytes of that one datagram. -/
theorem worker_sends (r : listener) (env : Env) (recvs : List Recv) (tr : List Action) :
    sent (r.worker env recvs tr).2 = sent tr ++ (accepted recvs).map (fun d => d.take 1500) ∧
    ∀ (i : Nat) (hi : i < (accepted recvs).length),
      (((accepted recvs)[i]).take 1500).length =
        (readFrom (bufferAfter (make 1500) ((accepted recvs).take i)) (accepted recvs)[i]).1 ∧
      (readFrom (bufferAfter (make 1500) ((accepted recvs).take i)) (accepted recvs)[i]).1
        ≤ 1500 ∧
      ((accepted recvs)[i]).take 1500 =
        (bufferAfter (make 1500) ((accepted recvs).take (i + 1))).take
          (readFrom (bufferAfter (make 1500) ((accepted recvs).take i)) (accepted recvs)[i]).1 := by
  constructor
  · have hmap : ∀ ds : List (List Byte),
        sent (ds.map (fun d => Action.send (d.take 1500))) = ds.map (fun d => d.take 1500) := by
      intro ds
      have := sent_sends (ds.map (fun d => d.take 1500))
      simpa [List.map_map] using this
    rcases recvs_split recvs with h | ⟨f, post, hf, h⟩
    · rw [h, accepted_datagrams, worker_running, sent_append, hmap]
    · rw [h, accepted_datagrams_failed _ f post hf, worker_exited r env _ f post hf,
        sent_append, sent_append, hmap]
      simp [sent]
  · intro i hi
    have hb : (bufferAfter (make 1500) ((accepted recvs).take i)).length = 1500 := by
      rw [bufferAfter_length, make_length]
    obtain ⟨h1, h2, h3⟩ :=
      worker_packet (bufferAfter (make 1500) ((accepted recvs).take i)) (accepted recvs)[i]
    rw [hb] at h2 h3
    refine ⟨?_, ?_, ?_⟩
    · rw [h3, List.length_take]
    · rw [h3]; omega
    · rw [bufferAfter_succ _ _ i hi, ← h1, h2]

/-- C8, at a concrete run: two datagrams and a timeout give two queue elements, and
the first is still `[1, 2, 3]` although the buffer was reused for `[9]` (shown on a
buffer of four bytes, where the reuse leaves `[9, 2, 3, 0]`). -/
theorem worker_sends_witness :
    sent (sampleListener.worker (scripted [] none none)
      [Recv.datagram [1, 2, 3], Recv.datagram [9], Recv.readErr (GoError.lib 7)] []).2 =
      [[1, 2, 3], [9]] ∧
    bufferAfter [0, 0, 0, 0] [[1, 2, 3], [9]] = [9, 2, 3, 0] := by
  refine ⟨?_, ?_⟩
  · have h := (worker_sends sampleListener (scripted [] none none)
      [Recv.datagram [1, 2, 3], Recv.datagram [9], Recv.readErr (GoError.lib 7)] []).1
    rw [h]
    rfl
  · rfl

/-! ## `Dial` -/

theorem command_eq (r : listener) (env : Env) (api : String) (tr : List Action)
    (x : Except GoError Status) (h : (r.command env api tr).1 = x) :
    r.command env api tr = (x, tr ++ [Action.get (r.url api)]) :=
  Prod.ext h (command_trace r env api tr)

/-- The request made by `command` depends on the host only. -/
theorem command_host (r : listener) (q : Option Chan) (env : Env) (api : String)
    (tr : List Action) :
    listener.command { r with packets := q } env api tr = r.command env api tr := rfl

theorem url_inj (r : listener) (a b : String) (h : r.url a = r.url b) : a = b := by
  have h1 := congrArg String.data h
  simp only [listener.url, String.data_append] at h1
  exact String.ext (List.append_cancel_left h1)

theorem dialProducer_ok (env : Env) (r : listener) (tr : List Action)
    (h : env.mpegtsOpen (tr ++ [Action.mpegtsOpen]) = none) :
    dialProducer env r tr =
      (Except.ok { FormatName := "gopro", RemoteAddr := r.host }, tr ++ [Action.mpegtsOpen]) := by
  simp only [dialProducer, h]

/-- C4. When every step succeeds, with `s1` and `s2` the statuses answered by the
first and the second status query, `Dial` returns a producer labelled `gopro` for
the host, and the actions it performed are exactly, in this order: status; stop if
and only if `s1` is `HighPowerPreview` or `LowPowerPreview`; bind the listener and
start its loop; status; start if and only if `s2` is `Off` or `Idle`; hand the
listener to the demultiplexer. At most one stop and at most one start occur. -/
theorem Dial_order (env : Env) (rawURL host : String) (s1 s2 : Status)
    (hparse : env.parseHost rawURL = Except.ok host)
    (h1 : ((listenerFor host).command env "/gopro/webcam/status" []).1 = Except.ok s1)
    (hstop : s1 = StatusHigh_Power_Preview ∨ s1 = StatusLow_Power_Preview →
      ∃ s, ((listenerFor host).command env "/gopro/webcam/stop"
        [Action.get ((listenerFor host).url "/gopro/webcam/status")]).1 = Except.ok s)
    (hbind : env.listenPacket (preListen host s1 ++ [Action.listenPacket]) = none)
    (h2 : ((listenerFor host).command env "/gopro/webcam/status" (bound host s1)).1 =
      Except.ok s2)
    (hstart : s2 = StatusOff ∨ s2 = StatusIdle →
      ∃ s, ((listenerFor host).command env "/gopro/webcam/start"
        (bound host s1 ++ [Action.get ((listenerFor host).url "/gopro/webcam/status")])).1 =
          Except.ok s)
    (hdemux : env.mpegtsOpen (negotiation host s1 s2) = none) :
    Dial env rawURL =
      (Except.ok { FormatName := "gopro", RemoteAddr := host }, negotiation host s1 s2) ∧
    (negotiation host s1 s2).count (Action.get ((listenerFor host).url "/gopro/webcam/stop")) =
      (if s1 = StatusHigh_Power_Preview ∨ s1 = StatusLow_Power_Preview then 1 else 0) ∧
    (negotiation host s1 s2).count (Action.get ((listenerFor host).url "/gopro/webcam/start")) =
      (if s2 = StatusOff ∨ s2 = StatusIdle then 1 else 0) := by
  have hne1 : (listenerFor host).url "/gopro/webcam/status" ≠
      (listenerFor host).url "/gopro/webcam/stop" :=
    fun h => absurd (url_inj _ _ _ h) (by decide)
  have hne2 : (listenerFor host).url "/gopro/webcam/status" ≠
      (listenerFor host).url "/gopro/webcam/start" :=
    fun h => absurd (url_inj _ _ _ h) (by decide)
  have hne3 : (listenerFor host).url "/gopro/webcam/stop" ≠
      (listenerFor host).url "/gopro/webcam/start" :=
    fun h => absurd (url_inj _ _ _ h) (by decide)
  refine ⟨?_, ?_, ?_⟩
  · -- the part of `Dial` after the bind
    have hlisten : ∀ tr, tr = preListen host s1 →
        dialListen env (listenerFor host) tr =
          (Except.ok { FormatName := "gopro", RemoteAddr := host }, negotiation host s1 s2) := by
      intro tr htr
      subst htr
      have hb : (listenerFor host).listen env (preListen host s1) =
          (none, { listenerFor host with packets := some { buf := [], closed := false } },
            bound host s1) := by
        simp only [listener.listen, hbind, bound, List.append_assoc, List.singleton_append]
      simp only [dialListen, hb, dialStart, command_host]
      rw [command_eq _ env _ _ _ h2]
      simp only
      by_cases hs2 : s2 = StatusOff ∨ s2 = StatusIdle
      · obtain ⟨s, hs⟩ := hstart hs2
        rw [if_pos hs2, command_host, command_eq _ env _ _ _ hs]
        simp only
        have hneg : negotiation host s1 s2 =
            bound host s1 ++ [Action.get ((listenerFor host).url "/gopro/webcam/status")] ++
              [Action.get ((listenerFor host).url "/gopro/webcam/start")] ++
              [Action.mpegtsOpen] := by
          simp only [negotiation, if_pos hs2]
        rw [hneg] at hdemux
        rw [dialProducer_ok env _ _ hdemux, hneg]
        rfl
      · rw [if_neg hs2]
        have hneg : negotiation host s1 s2 =
            bound host s1 ++ [Action.get ((listenerFor host).url "/gopro/webcam/status")] ++
              [Action.mpegtsOpen] := by
          simp only [negotiation, if_neg hs2, List.append_nil]
        rw [hneg] at hdemux
        rw [dialProducer_ok env _ _ hdemux, hneg]
        rfl
    simp only [Dial, hparse]
    rw [command_eq _ env _ _ _ h1]
    simp only [List.nil_append]
    by_cases hs1 : s1 = StatusHigh_Power_Preview ∨ s1 = StatusLow_Power_Preview
    · obtain ⟨s, hs⟩ := hstop hs1
      rw [if_pos hs1, command_eq _ env _ _ _ hs]
      simp only
      exact hlisten _ (by simp only [preListen, if_pos hs1, List.singleton_append])
    · rw [if_neg hs1]
      exact hlisten _ (by simp only [preListen, if_neg hs1])
  · by_cases hs1 : s1 = StatusHigh_Power_Preview ∨ s1 = StatusLow_Power_Preview <;>
      by_cases hs2 : s2 = StatusOff ∨ s2 = StatusIdle <;>
      simp [negotiation, bound, preListen, hs1, hs2, List.count_cons, hne1, hne3.symm]
  · by_cases hs1 : s1 = StatusHigh_Power_Preview ∨ s1 = StatusLow_Power_Preview <;>
      by_cases hs2 : s2 = StatusOff ∨ s2 = StatusIdle <;>
      simp [negotiation, bound, preListen, hs1, hs2, List.count_cons, hne2, hne3]

/-- C4, at a concrete run: the camera answers `HighPowerPreview`, accepts the stop,
then answers `Off` and accepts the start. -/
theorem Dial_order_witness :
    Dial (scripted [ok200 "\x7b\"status\":2,\"error\":0\x7d",
        ok200 "\x7b\"status\":0,\"error\":0\x7d", ok200 "\x7b\"status\":0,\"error\":0\x7d",
        ok200 "\x7b\"status\":2,\"error\":0\x7d"] none none) "10.5.5.9" =
      (Except.ok { FormatName := "gopro", RemoteAddr := "10.5.5.9" },
        negotiation "10.5.5.9" 2 0) ∧
    negotiation "10.5.5.9" 2 0 =
      [Action.get "http://10.5.5.9:8080/gopro/webcam/status",
       Action.get "http://10.5.5.9:8080/gopro/webcam/stop",
       Action.listenPacket, Action.goWorker,
       Action.get "http://10.5.5.9:8080/gopro/webcam/status",
       Action.get "http://10.5.5.9:8080/gopro/webcam/start",
       Action.mpegtsOpen] :=
  ⟨(Dial_order (scripted [ok200 "\x7b\"status\":2,\"error\":0\x7d",
        ok200 "\x7b\"status\":0,\"error\":0\x7d", ok200 "\x7b\"status\":0,\"error\":0\x7d",
        ok200 "\x7b\"status\":2,\"error\":0\x7d"] none none) "10.5.5.9" "10.5.5.9" 2 0
      rfl (by decide) (fun _ => ⟨0, by decide⟩) rfl (by decide) (fun _ => ⟨2, by decide⟩)
      rfl).1, by decide⟩

/-! ### Requests answered with an error code -/

theorem snoc_eq_split (tr : List Action) (a x : Action) (pre post : List Action)
    (h : tr ++ [a] = pre ++ x :: post) :
    (post = [] ∧ tr = pre ∧ a = x) ∨ ∃ post', post = post' ++ [a] ∧ tr = pre ++ x :: post' := by
  rcases List.eq_nil_or_concat post with hp | ⟨post', b, hp⟩
  · left
    subst hp
    have h' : tr ++ [a] = pre ++ [x] := h
    obtain ⟨h1, h2⟩ := List.append_inj' h' rfl
    exact ⟨rfl, h1, by simpa using h2⟩
  · right
    subst hp
    have h' : tr ++ [a] = (pre ++ x :: post') ++ [b] := by
      rw [h]; simp
    obtain ⟨h1, h2⟩ := List.append_inj' h' rfl
    have hb : a = b := by simpa using h2
    exact ⟨post', by rw [hb, List.concat_eq_append], h1⟩

theorem noErrorCode_nil (env : Env) : noErrorCode env [] := by
  intro pre u post h
  cases pre <;> cases h

theorem noErrorCode_snoc (env : Env) (tr : List Action) (a : Action)
    (h : noErrorCode env tr) (ha : a.isGet = false) : noErrorCode env (tr ++ [a]) := by
  intro pre u post hsplit
  rcases snoc_eq_split tr a _ pre post hsplit with ⟨_, _, h3⟩ | ⟨post', _, h2⟩
  · rw [h3] at ha; cases ha
  · exact h pre u post' h2

/-- A request answered with an error code greater than 0 makes `command` fail. -/
theorem command_errorCoded (r : listener) (env : Env) (api : String) (tr : List Action)
    (h : errorCoded env tr (r.url api)) : ∃ err, (r.command env api tr).1 = Except.error err := by
  obtain ⟨res, sr, hget, hdec, hpos⟩ := h
  exact (command_failure_cases r env api tr res hget).mpr (Or.inr (Or.inr ⟨sr, hdec, hpos⟩))

theorem noErrorCode_command (r : listener) (env : Env) (api : String) (tr : List Action)
    (s : Status) (h : noErrorCode env tr) (hok : (r.command env api tr).1 = Except.ok s) :
    noErrorCode env (tr ++ [Action.get (r.url api)]) := by
  intro pre u post hsplit hcode
  rcases snoc_eq_split tr _ _ pre post hsplit with ⟨_, h2, h3⟩ | ⟨post', _, h2⟩
  · subst h2
    cases h3
    obtain ⟨err, herr⟩ := command_errorCoded r env api tr hcode
    rw [hok] at herr
    cases herr
  · exact h pre u post' h2 hcode

theorem aborts_of_noErrorCode (env : Env) (run : Except GoError Producer × List Action)
    (h : noErrorCode env run.2) : abortsOnErrorCode env run :=
  fun pre u post hsplit hcode => absurd hcode (h pre u post hsplit)

theorem aborts_of_failed (env : Env) (tr : List Action) (u : String) (err : GoError)
    (h : noErrorCode env tr) :
    abortsOnErrorCode env (Except.error err, tr ++ [Action.get u]) := by
  intro pre u' post hsplit hcode
  rcases snoc_eq_split tr _ _ pre post hsplit with ⟨h1, _, _⟩ | ⟨post', _, h2⟩
  · exact ⟨h1, err, rfl⟩
  · exact absurd hcode (h pre u' post' h2)

theorem dialProducer_aborts (env : Env) (r : listener) (tr : List Action)
    (h : noErrorCode env tr) : abortsOnErrorCode env (dialProducer env r tr) := by
  apply aborts_of_noErrorCode
  have h' := noErrorCode_snoc env tr Action.mpegtsOpen h rfl
  simp only [dialProducer]
  split <;> exact h'

theorem dialStart_aborts (env : Env) (r : listener) (tr : List Action)
    (h : noErrorCode env tr) : abortsOnErrorCode env (dialStart env r tr) := by
  cases hc : (r.command env "/gopro/webcam/status" tr).1 with
  | error err =>
    simp only [dialStart, command_eq r env _ tr _ hc]
    exact aborts_of_failed env tr _ err h
  | ok status =>
    have h1 := noErrorCode_command r env _ tr status h hc
    simp only [dialStart, command_eq r env _ tr _ hc]
    split
    · cases hs : (r.command env "/gopro/webcam/start"
          (tr ++ [Action.get (r.url "/gopro/webcam/status")])).1 with
      | error err =>
        simp only [command_eq r env _ _ _ hs]
        exact aborts_of_failed env _ _ err h1
      | ok s =>
        simp only [command_eq r env _ _ _ hs]
        exact dialProducer_aborts env r _ (noErrorCode_command r env _ _ s h1 hs)
    · exact dialProducer_aborts env r _ h1

theorem dialListen_aborts (env : Env) (r : listener) (tr : List Action)
    (h : noErrorCode env tr) : abortsOnErrorCode env (dialListen env r tr) := by
  have h1 := noErrorCode_snoc env tr Action.listenPacket h rfl
  simp only [dialListen, listener.listen]
  split
  · rename_i err r1 tr1 heq
    split at heq
    · cases heq
      exact aborts_of_noErrorCode env _ h1
    · cases heq
  · rename_i r1 tr1 heq
    split at heq
    · cases heq
    · cases heq
      exact dialStart_aborts env _ _ (noErrorCode_snoc env _ Action.goWorker h1 rfl)

theorem Dial_aborts (env : Env) (rawURL : String) : abortsOnErrorCode env (Dial env rawURL) := by
  simp only [Dial]
  split
  · exact aborts_of_noErrorCode env _ (noErrorCode_nil env)
  · rename_i host _
    cases hc : ((listenerFor host).command env "/gopro/webcam/status" []).1 with
    | error err =>
      simp only [command_eq _ env _ _ _ hc]
      exact aborts_of_failed env [] _ err (noErrorCode_nil env)
    | ok status =>
      have h1 := noErrorCode_command _ env _ [] status (noErrorCode_nil env) hc
      simp only [command_eq _ env _ _ _ hc]
      split
      · cases hs : ((listenerFor host).command env "/gopro/webcam/stop"
            ([] ++ [Action.get ((listenerFor host).url "/gopro/webcam/status")])).1 with
        | error err =>
          simp only [command_eq _ env _ _ _ hs]
          exact aborts_of_failed env _ _ err h1
        | ok s =>
          simp only [command_eq _ env _ _ _ hs]
          exact dialListen_aborts env _ _ (noErrorCode_command _ env _ _ s h1 hs)
      · exact dialListen_aborts env _ _ h1

/-- C5, as amended. Take any run of `Dial` and any request in its trace (the first
status query, the stop, the second status query or the start). If the response to
that request decodes to an error code greater than 0, then `Dial` returns an error
and that request is the last action of `Dial`: `Dial` issues no further command. -/
theorem Dial_aborts_on_error_code (env : Env) (rawURL : String) (pre post : List Action)
    (u : String) (res : Response) (sr : StatusResponse)
    (htrace : (Dial env rawURL).2 = pre ++ Action.get u :: post)
    (hget : env.get (pre ++ [Action.get u]) = Except.ok res)
    (hdecode : env.decode res.Body = Except.ok sr)
    (hcode : sr.Error > 0) :
    post = [] ∧ ∃ err, (Dial env rawURL).1 = Except.error err :=
  Dial_aborts env rawURL pre u post htrace ⟨res, sr, hget, hdecode, hcode⟩

/-- C5, at a concrete run: the first status is `Off`, the listener is bound, and the
second status query is answered with error code 5. -/
theorem Dial_aborts_on_error_code_witness :
    (Dial (scripted [ok200 "\x7b\"status\":0,\"error\":0\x7d",
        ok200 "\x7b\"status\":0,\"error\":5\x7d"] none none) "10.5.5.9").2 =
      [Action.get "http://10.5.5.9:8080/gopro/webcam/status", Action.listenPacket,
       Action.goWorker] ++ Action.get "http://10.5.5.9:8080/gopro/webcam/status" :: [] ∧
    ∃ err, (Dial (scripted [ok200 "\x7b\"status\":0,\"error\":0\x7d",
        ok200 "\x7b\"status\":0,\"error\":5\x7d"] none none) "10.5.5.9").1 = Except.error err :=
  ⟨by decide,
    (Dial_aborts_on_error_code (scripted [ok200 "\x7b\"status\":0,\"error\":0\x7d",
        ok200 "\x7b\"status\":0,\"error\":5\x7d"] none none) "10.5.5.9"
      [Action.get "http://10.5.5.9:8080/gopro/webcam/status", Action.listenPacket,
       Action.goWorker] [] "http://10.5.5.9:8080/gopro/webcam/status"
      { StatusCode := 200, Status := "200 OK", Body := "\x7b\"status\":0,\"error\":5\x7d" }
      { Status := 0, Error := 5 } (by decide) (by decide) (by decide) (by decide)).2⟩

/-- C5 as stated fails twice over. First, a status response with the non-zero error
code -1 does not make `Dial` abort: it goes on to stop, bind, query and start, and
returns a producer. Second, when the second status query is answered with error code
5, `Dial` aborts, but the receive loop it has started issues a stop command to the
camera when it exits, after the failing command. -/
theorem Dial_error_code_counterexamples :
    ((scripted [ok200 "\x7b\"status\":2,\"error\":-1\x7d",
        ok200 "\x7b\"status\":0,\"error\":0\x7d", ok200 "\x7b\"status\":0,\"error\":0\x7d",
        ok200 "\x7b\"status\":2,\"error\":0\x7d"] none none).get
          [Action.get "http://10.5.5.9:8080/gopro/webcam/status"] =
        ok200 "\x7b\"status\":2,\"error\":-1\x7d" ∧
      sampleDecode "\x7b\"status\":2,\"error\":-1\x7d" = Except.ok { Status := 2, Error := -1 } ∧
      Dial (scripted [ok200 "\x7b\"status\":2,\"error\":-1\x7d",
        ok200 "\x7b\"status\":0,\"error\":0\x7d", ok200 "\x7b\"status\":0,\"error\":0\x7d",
        ok200 "\x7b\"status\":2,\"error\":0\x7d"] none none) "10.5.5.9" =
        (Except.ok { FormatName := "gopro", RemoteAddr := "10.5.5.9" },
          [Action.get "http://10.5.5.9:8080/gopro/webcam/status",
           Action.get "http://10.5.5.9:8080/gopro/webcam/stop",
           Action.listenPacket, Action.goWorker,
           Action.get "http://10.5.5.9:8080/gopro/webcam/status",
           Action.get "http://10.5.5.9:8080/gopro/webcam/start",
           Action.mpegtsOpen])) ∧
    (Dial (scripted [ok200 "\x7b\"status\":0,\"error\":0\x7d",
        ok200 "\x7b\"status\":0,\"error\":5\x7d"] none none) "10.5.5.9" =
        (Except.error (GoError.text "gopro: error in status response: 5"),
          [Action.get "http://10.5.5.9:8080/gopro/webcam/status", Action.listenPacket,
           Action.goWorker, Action.get "http://10.5.5.9:8080/gopro/webcam/status"]) ∧
      session (scripted [ok200 "\x7b\"status\":0,\"error\":0\x7d",
        ok200 "\x7b\"status\":0,\"error\":5\x7d"] none none) "10.5.5.9"
          [Recv.readErr (GoError.lib 7)] =
        [Action.get "http://10.5.5.9:8080/gopro/webcam/status", Action.listenPacket,
         Action.goWorker, Action.get "http://10.5.5.9:8080/gopro/webcam/status",
         Action.closeChan, Action.get "http://10.5.5.9:8080/gopro/webcam/stop"]) := by
  refine ⟨⟨by decide, by decide, by decide⟩, by decide, by decide⟩

theorem count_get_sends (u : String) (ds : List (List Byte)) :
    (ds.map (fun d => Action.send (d.take 1500))).count (Action.get u) = 0 := by
  rw [List.count_eq_zero]
  intro h
  obtain ⟨d, _, hd⟩ := List.mem_map.mp h
  cases hd

/-- The run of `worker` on any outcomes: the datagrams accepted are sent, and the
loop has returned exactly when it closed the queue and issued the stop. -/
theorem worker_closed_form (r : listener) (env : Env) (recvs : List Recv) (tr : List Action) :
    r.worker env recvs tr =
      ((r.worker env recvs tr).1,
        tr ++ (accepted recvs).map (fun d => Action.send (d.take 1500)) ++
          (if (r.worker env recvs tr).1 then
            [Action.closeChan, Action.get (r.url "/gopro/webcam/stop")]
          else [])) := by
  rcases recvs_split recvs with h | ⟨f, post, hf, h⟩
  · have hw := worker_running r env (accepted recvs) tr
    rw [← h] at hw
    rw [hw]
    simp
  · have hw := worker_exited r env (accepted recvs) f post hf tr
    rw [← h] at hw
    rw [hw]
    simp

/-- C9. Suppose `Dial` has bound the listener and started its loop, and then the
second status query fails with `e`, or it answers `Off` or `Idle` and the start
command fails with `e`. Then `Dial` returns `e`; after the bind it has done nothing
but those one or two requests, so it has neither closed the socket nor issued a
stop; and in the session that follows, the stops issued after the bind are none
while the receive loop runs and exactly one, the loop's own, once it has exited. -/
theorem Dial_fails_after_bind (env : Env) (rawURL host : String) (s1 : Status) (e : GoError)
    (hparse : env.parseHost rawURL = Except.ok host)
    (h1 : ((listenerFor host).command env "/gopro/webcam/status" []).1 = Except.ok s1)
    (hstop : s1 = StatusHigh_Power_Preview ∨ s1 = StatusLow_Power_Preview →
      ∃ s, ((listenerFor host).command env "/gopro/webcam/stop"
        [Action.get ((listenerFor host).url "/gopro/webcam/status")]).1 = Except.ok s)
    (hbind : env.listenPacket (preListen host s1 ++ [Action.listenPacket]) = none)
    (hfail :
      ((listenerFor host).command env "/gopro/webcam/status" (bound host s1)).1 =
        Except.error e ∨
      ∃ s2, (s2 = StatusOff ∨ s2 = StatusIdle) ∧
        ((listenerFor host).command env "/gopro/webcam/status" (bound host s1)).1 =
          Except.ok s2 ∧
        ((listenerFor host).command env "/gopro/webcam/start"
          (bound host s1 ++ [Action.get ((listenerFor host).url "/gopro/webcam/status")])).1 =
          Except.error e) :
    (Dial env rawURL).1 = Except.error e ∧
    (∃ post, (Dial env rawURL).2 = bound host s1 ++ post ∧
      (post = [Action.get ((listenerFor host).url "/gopro/webcam/status")] ∨
        post = [Action.get ((listenerFor host).url "/gopro/webcam/status"),
          Action.get ((listenerFor host).url "/gopro/webcam/start")]) ∧
      Action.connClose ∉ post ∧
      Action.get ((listenerFor host).url "/gopro/webcam/stop") ∉ post) ∧
    Action.connClose ∉ (Dial env rawURL).2 ∧
    ∀ recvs : List Recv,
      ((((listenerFor host).worker env recvs (Dial env rawURL).2).2.drop
          (bound host s1).length).count
          (Action.get ((listenerFor host).url "/gopro/webcam/stop"))) =
        if ((listenerFor host).worker env recvs (Dial env rawURL).2).1 then 1 else 0 := by
  have hne1 : (listenerFor host).url "/gopro/webcam/status" ≠
      (listenerFor host).url "/gopro/webcam/stop" :=
    fun h => absurd (url_inj _ _ _ h) (by decide)
  have hne3 : (listenerFor host).url "/gopro/webcam/start" ≠
      (listenerFor host).url "/gopro/webcam/stop" :=
    fun h => absurd (url_inj _ _ _ h) (by decide)
  -- the run of `Dial`
  have hrun : ∃ post, Dial env rawURL = (Except.error e, bound host s1 ++ post) ∧
      (post = [Action.get ((listenerFor host).url "/gopro/webcam/status")] ∨
        post = [Action.get ((listenerFor host).url "/gopro/webcam/status"),
          Action.get ((listenerFor host).url "/gopro/webcam/start")]) := by
    have hlisten : ∀ tr, tr = preListen host s1 →
        ∃ post, dialListen env (listenerFor host) tr = (Except.error e, bound host s1 ++ post) ∧
          (post = [Action.get ((listenerFor host).url "/gopro/webcam/status")] ∨
            post = [Action.get ((listenerFor host).url "/gopro/webcam/status"),
              Action.get ((listenerFor host).url "/gopro/webcam/start")]) := by
      intro tr htr
      subst htr
      have hb : (listenerFor host).listen env (preListen host s1) =
          (none, { listenerFor host with packets := some { buf := [], closed := false } },
            bound host s1) := by
        simp only [listener.listen, hbind, bound, List.append_assoc, List.singleton_append]
      simp only [dialListen, hb, dialStart, command_host]
      rcases hfail with hf | ⟨s2, hs2, hq, hf⟩
      · rw [command_eq _ env _ _ _ hf]
        exact ⟨_, rfl, Or.inl rfl⟩
      · rw [command_eq _ env _ _ _ hq]
        simp only
        rw [if_pos hs2, command_host, command_eq _ env _ _ _ hf]
        exact ⟨_, by simp only [List.append_assoc, List.singleton_append], Or.inr rfl⟩
    simp only [Dial, hparse]
    rw [command_eq _ env _ _ _ h1]
    simp only [List.nil_append]
    by_cases hs1 : s1 = StatusHigh_Power_Preview ∨ s1 = StatusLow_Power_Preview
    · obtain ⟨s, hs⟩ := hstop hs1
      rw [if_pos hs1, command_eq _ env _ _ _ hs]
      simp only
      exact hlisten _ (by simp only [preListen, if_pos hs1, List.singleton_append])
    · rw [if_neg hs1]
      exact hlisten _ (by simp only [preListen, if_neg hs1])
  obtain ⟨post, hD, hpost⟩ := hrun
  have hclose : Action.connClose ∉ post := by
    rcases hpost with h | h <;> rw [h] <;> simp
  have hnostop : Action.get ((listenerFor host).url "/gopro/webcam/stop") ∉ post := by
    rcases hpost with h | h <;> rw [h] <;> simp [hne1.symm, hne3.symm]
  have hbound : Action.connClose ∉ bound host s1 := by
    simp only [bound, preListen]
    split <;> simp
  refine ⟨by rw [hD], ⟨post, by rw [hD], hpost, hclose, hnostop⟩, ?_, ?_⟩
  · rw [hD]
    simp only [List.mem_append, not_or]
    exact ⟨hbound, hclose⟩
  · intro recvs
    rw [hD]
    simp only
    rw [worker_closed_form (listenerFor host) env recvs (bound host s1 ++ post)]
    simp only [List.append_assoc, List.drop_left, List.count_append, count_get_sends,
      List.count_eq_zero.mpr hnostop]
    split <;> simp [List.count_cons]

/-- C9, at a concrete run: the first status is `Off`, the listener is bound, and the
second status query is answered with error code 5. -/
theorem Dial_fails_after_bind_witness :
    (Dial (scripted [ok200 "\x7b\"status\":0,\"error\":0\x7d",
        ok200 "\x7b\"status\":0,\"error\":5\x7d"] none none) "10.5.5.9").1 =
      Except.error (GoError.text "gopro: error in status response: 5") ∧
    Action.connClose ∉ (Dial (scripted [ok200 "\x7b\"status\":0,\"error\":0\x7d",
        ok200 "\x7b\"status\":0,\"error\":5\x7d"] none none) "10.5.5.9").2 ∧
    (Dial (scripted [ok200 "\x7b\"status\":0,\"error\":0\x7d",
        ok200 "\x7b\"status\":0,\"error\":5\x7d"] none none) "10.5.5.9").2 =
      [Action.get "http://10.5.5.9:8080/gopro/webcam/status", Action.listenPacket,
       Action.goWorker, Action.get "http://10.5.5.9:8080/gopro/webcam/status"] :=
  ⟨(Dial_fails_after_bind (scripted [ok200 "\x7b\"status\":0,\"error\":0\x7d",
        ok200 "\x7b\"status\":0,\"error\":5\x7d"] none none) "10.5.5.9" "10.5.5.9" 0
      (GoError.text "gopro: error in status response: 5") rfl (by decide)
      (fun h => absurd h (by decide)) rfl (Or.inl (by decide))).1,
   (Dial_fails_after_bind (scripted [ok200 "\x7b\"status\":0,\"error\":0\x7d",
        ok200 "\x7b\"status\":0,\"error\":5\x7d"] none none) "10.5.5.9" "10.5.5.9" 0
      (GoError.text "gopro: error in status response: 5") rfl (by decide)
      (fun h => absurd h (by decide)) rfl (Or.inl (by decide))).2.2.1,
   by decide⟩

end gopro
